import Mathlib

/-!
Verification of the task-management core (bhatti/sample-task-management).

The Go sources are shallowly embedded: the in-memory repository
(`internal/infrastructure/memory/memory_repository.go`) becomes a pure
`Store` record, each use-case method
(`internal/usecase/task_usecase.go`) becomes a function
`Store → args → Except String α × Store` that returns the error (if any)
together with the store the operation leaves behind, and the domain
rules (`internal/domain/task.go`) become pure functions.  Go maps are
modelled as association lists; `time.Time` values as natural numbers,
each operation receiving the current instant `now` as a parameter.
-/

namespace TaskMgmt

/-- Task status constants from `internal/domain/task.go`. -/
def statusPending : String := "pending"

def statusInProgress : String := "in_progress"

def statusCompleted : String := "completed"

def statusCancelled : String := "cancelled"

def statusBlocked : String := "blocked"

/-- Priority constants from `internal/domain/task.go`. -/
def priorityLow : String := "low"

def priorityMedium : String := "medium"

def priorityHigh : String := "high"

def priorityCritical : String := "critical"

/-- Tag constants from `internal/domain/task.go`. -/
def tagBug : String := "bug"

def tagFeature : String := "feature"

def tagEnhancement : String := "enhancement"

def tagDocumentation : String := "documentation"

/-- The `Task` record from `internal/domain/task.go`; `Dependencies`
(`map[TaskID]bool`, a set) is a list of ids. -/
structure Task where
  id : Nat
  title : String
  description : String
  status : String
  priority : String
  assignee : String
  createdBy : String
  createdAt : Nat
  updatedAt : Nat
  dueDate : Option Nat
  tags : List String
  dependencies : List Nat
deriving Repr, DecidableEq

/-- The `Session` record from `internal/domain/user.go`. -/
structure Session where
  userID : String
  token : String
  active : Bool
  createdAt : Nat
  expiresAt : Nat
deriving Repr, DecidableEq

/-- The `User` record from `internal/domain/user.go` (`JoinedAt` is
irrelevant to the verified operations and omitted). -/
structure User where
  id : String
  name : String
  email : String
deriving Repr, DecidableEq

/-- `Session.IsExpired`: `time.Now().After(s.ExpiresAt)`. -/
def Session.isExpired (s : Session) (now : Nat) : Bool :=
  s.expiresAt < now

/-- `Session.IsValid`: active and not expired. -/
def Session.isValid (s : Session) (now : Nat) : Bool :=
  s.active && !(s.isExpired now)

/-- The `ValidTransitions` table from `internal/domain/task.go`. -/
def ValidTransitions : List (String × String) :=
  [(statusPending, statusInProgress),
   (statusPending, statusCancelled),
   (statusPending, statusBlocked),
   (statusInProgress, statusCompleted),
   (statusInProgress, statusCancelled),
   (statusInProgress, statusBlocked),
   (statusInProgress, statusPending),
   (statusBlocked, statusPending),
   (statusBlocked, statusInProgress),
   (statusBlocked, statusCancelled)]

/-- `IsValidTransition` from `internal/domain/task.go`: membership in the
transition table. -/
def IsValidTransition (a b : String) : Bool :=
  ValidTransitions.contains (a, b)

/-- `Task.CanDelete`: only completed or cancelled tasks may be deleted. -/
def Task.canDelete (t : Task) : Bool :=
  t.status == statusCompleted || t.status == statusCancelled

/-- Association-list lookup, modelling a Go map read (first binding wins). -/
def lookupA {α β : Type} [BEq α] (l : List (α × β)) (k : α) : Option β :=
  (l.find? (fun p => p.1 == k)).map Prod.snd

/-- Association-list write, modelling a Go map assignment: replace the
binding if the key is present, otherwise append it. -/
def setA {α β : Type} [BEq α] : List (α × β) → α → β → List (α × β)
  | [], k, v => [(k, v)]
  | (k', v') :: rest, k, v =>
    if k' == k then (k, v) :: rest else (k', v') :: setA rest k v

/-- Association-list delete, modelling a Go map `delete`. -/
def eraseA {α β : Type} [BEq α] : List (α × β) → α → List (α × β)
  | [], _ => []
  | (k', v') :: rest, k =>
    if k' == k then rest else (k', v') :: eraseA rest k

/-- Set insertion for id sets (`map[TaskID]bool` with value `true`). -/
def addId (l : List Nat) (i : Nat) : List Nat :=
  if l.contains i then l else l ++ [i]

/-- `Task.ShouldUnblock` from `internal/domain/task.go`: a blocked task
whose every existing dependency is completed may be unblocked. -/
def ShouldUnblock (t : Task) (allTasks : List (Nat × Task)) : Bool :=
  if t.status != statusBlocked then false
  else t.dependencies.all (fun d =>
    match lookupA allTasks d with
    | some dt => dt.status == statusCompleted
    | none => true)

/-- `isValidStatus` from `internal/domain/task.go`. -/
def isValidStatus (s : String) : Bool :=
  s == statusPending || s == statusInProgress || s == statusCompleted ||
    s == statusCancelled || s == statusBlocked

/-- `isValidPriority` from `internal/domain/task.go`. -/
def isValidPriority (p : String) : Bool :=
  p == priorityLow || p == priorityMedium || p == priorityHigh ||
    p == priorityCritical

/-- `isValidTag` from `internal/domain/task.go`. -/
def isValidTag (t : String) : Bool :=
  t == tagBug || t == tagFeature || t == tagEnhancement ||
    t == tagDocumentation

/-- `Task.Validate` from `internal/domain/task.go`. -/
def Task.validate (t : Task) : Except String Unit :=
  if t.title == "" then .error "task title cannot be empty"
  else if t.description == "" then .error "task description cannot be empty"
  else if !(isValidStatus t.status) then .error "invalid task status"
  else if !(isValidPriority t.priority) then .error "invalid task priority"
  else if t.assignee == "" then .error "task must have an assignee"
  else if t.createdBy == "" then .error "task must have a creator"
  else if t.updatedAt < t.createdAt then
    .error "created time cannot be after updated time"
  else if !(t.tags.all isValidTag) then .error "invalid tag"
  else .ok ()

/-- The `MemoryRepository` state from
`internal/infrastructure/memory/memory_repository.go`: tasks, users and
sessions maps, the per-user task index, the id counter, the current
user, and the logical clock. -/
structure Store where
  tasks : List (Nat × Task)
  users : List (String × User)
  sessions : List (String × Session)
  userTasks : List (String × List Nat)
  nextTaskID : Nat
  currentUser : Option String
  clock : Nat
deriving Repr, DecidableEq

/-- The `domain.SystemState` snapshot consumed by the invariant
checker (fields as built by `MemoryRepository.GetSystemState`). -/
structure SystemState where
  tasks : List (Nat × Task)
  userTasks : List (String × List Nat)
  nextTaskID : Nat
  currentUser : Option String
  clock : Nat
  sessions : List (String × Session)
deriving Repr, DecidableEq

/-- `MemoryRepository.GetSystemState`: snapshot the store; only sessions
valid at `now` are copied, keyed by user id. -/
def GetSystemState (s : Store) (now : Nat) : SystemState :=
  { tasks := s.tasks
    userTasks := s.userTasks
    nextTaskID := s.nextTaskID
    currentUser := s.currentUser
    clock := s.clock
    sessions := (s.sessions.filter (fun p => p.2.isValid now)).map
      (fun p => (p.2.userID, p.2)) }

/-- `MemoryUnitOfWork.Rollback` is a no-op in the in-memory
implementation. -/
def Rollback (s : Store) : Store := s

/-- `RemoveUserTask` / the delete half of the index maintenance: delete
the id from the user's index if that user has an index entry. -/
def removeFromIndex (ut : List (String × List Nat)) (u : String) (i : Nat) :
    List (String × List Nat) :=
  match lookupA ut u with
  | some l => setA ut u (l.erase i)
  | none => ut

/-- `AddUserTask`: create the user's index entry if needed and insert the
id. -/
def addToIndex (ut : List (String × List Nat)) (u : String) (i : Nat) :
    List (String × List Nat) :=
  setA ut u (addId ((lookupA ut u).getD []) i)

/-- `MemoryRepository.CreateTask`. -/
def Memory.CreateTask (s : Store) (t0 : Task) : Except String Unit × Store :=
  let t := if t0.id == 0 then { t0 with id := s.nextTaskID } else t0
  let s1 := if t0.id == 0 then { s with nextTaskID := s.nextTaskID + 1 } else s
  if (lookupA s1.tasks t.id).isSome then (.error "task already exists", s1)
  else
    (.ok (), { s1 with tasks := setA s1.tasks t.id t,
                       userTasks := addToIndex s1.userTasks t.assignee t.id })

/-- `MemoryRepository.UpdateTask`: replace the stored task, moving it
between user indexes when the assignee changed. -/
def Memory.UpdateTask (s : Store) (t : Task) : Except String Unit × Store :=
  match lookupA s.tasks t.id with
  | none => (.error "task not found", s)
  | some existing =>
    let ut :=
      if existing.assignee != t.assignee then
        addToIndex (removeFromIndex s.userTasks existing.assignee t.id)
          t.assignee t.id
      else s.userTasks
    (.ok (), { s with tasks := setA s.tasks t.id t, userTasks := ut })

/-- `MemoryRepository.DeleteTask`: remove the task and its index entry. -/
def Memory.DeleteTask (s : Store) (id : Nat) : Except String Unit × Store :=
  match lookupA s.tasks id with
  | none => (.error "task not found", s)
  | some t =>
    (.ok (), { s with tasks := eraseA s.tasks id,
                      userTasks := removeFromIndex s.userTasks t.assignee id })

/-- `MemoryRepository.GetTasksByStatus`. -/
def Memory.GetTasksByStatus (s : Store) (st : String) : List Task :=
  (s.tasks.filter (fun p => p.2.status == st)).map Prod.snd

/-- `MemoryRepository.GetTasksByDependency`: all tasks listing `id` as a
dependency. -/
def Memory.GetTasksByDependency (s : Store) (id : Nat) : List Task :=
  (s.tasks.filter (fun p => p.2.dependencies.contains id)).map Prod.snd

/-- `MemoryRepository.BulkUpdateStatus`: set the status (and touch
`updatedAt`) of every listed task that exists. -/
def Memory.BulkUpdateStatus (ts : List (Nat × Task)) (ids : List Nat)
    (st : String) (now : Nat) : List (Nat × Task) :=
  ids.foldl
    (fun acc i =>
      match lookupA acc i with
      | some t => setA acc i { t with status := st, updatedAt := now }
      | none => acc)
    ts

/-- `MemoryRepository.GetSessionByUser`: the first session of the user
that is valid at `now`. -/
def Memory.GetSessionByUser (s : Store) (u : String) (now : Nat) :
    Option Session :=
  (s.sessions.find? (fun p => p.2.userID == u && p.2.isValid now)).map
    Prod.snd

/-- `MemoryRepository.CreateSession`: reject duplicate tokens. -/
def Memory.CreateSession (s : Store) (sess : Session) :
    Except String Unit × Store :=
  if (lookupA s.sessions sess.token).isSome then
    (.error "session with token already exists", s)
  else (.ok (), { s with sessions := setA s.sessions sess.token sess })

/-- `domain.MaxTasks` from the domain constants (the system-state file
of `internal/domain`): the maximum number of tasks in the system. -/
def MaxTasks : Nat := 1000

/-- `checkNoOrphanTasks` from `pkg/invariants/invariants.go`: every task
id appears in some user's task list. -/
def checkNoOrphanTasks (ts : List (Nat × Task))
    (ut : List (String × List Nat)) : Bool :=
  ts.all (fun p => ut.any (fun q => q.2.contains p.1))

/-- `checkTaskOwnership` from `pkg/invariants/invariants.go`: each task
is in its assignee's task list (`SystemState.GetUserTasks` returns the
empty list for users without an index entry). -/
def checkTaskOwnership (ts : List (Nat × Task))
    (ut : List (String × List Nat)) : Bool :=
  ts.all (fun p => ((lookupA ut p.2.assignee).getD []).contains p.1)

/-- `checkValidTaskIds` from `pkg/invariants/invariants.go`: ids are at
least 1 and below the next-id counter. -/
def checkValidTaskIds (ts : List (Nat × Task)) (next : Nat) : Bool :=
  ts.all (fun p => decide (1 ≤ p.1) && decide (p.1 < next))

/-- `checkNoDuplicateTaskIds` from `pkg/invariants/invariants.go`: the
map key of each task equals its stored id field, and no id is seen
twice (`seen` models the `seenIDs` map built during the iteration). -/
def checkNoDuplicateTaskIds : List (Nat × Task) → List Nat → Bool
  | [], _ => true
  | (k, t) :: rest, seen =>
    if t.id != k then false
    else if seen.contains t.id then false
    else checkNoDuplicateTaskIds rest (addId seen t.id)

/-- `checkValidStateTransitions` from `pkg/invariants/invariants.go`:
every stored status is one of the five values of its `validStates`
set. -/
def checkValidStateTransitions (ts : List (Nat × Task)) : Bool :=
  ts.all (fun p => isValidStatus p.2.status)

/-- `checkConsistentTimestamps` from `pkg/invariants/invariants.go`:
`createdAt ≤ updatedAt` (the clock comparison is commented out in the
source). -/
def checkConsistentTimestamps (ts : List (Nat × Task)) : Bool :=
  ts.all (fun p => decide (p.2.createdAt ≤ p.2.updatedAt))

/-- The recursive `hasCycle` of `pkg/invariants/invariants.go`,
fuel-bounded, over the dependency graph (node ↦ dependency ids; a node
absent from the graph has no children, exactly as the Go map lookup):
`vis` is the shared visited set, `rec0` the in-progress recursion
stack. -/
def invHasCycle (g : List (Nat × List Nat)) :
    Nat → Nat → List Nat → List Nat → Bool × List Nat
  | 0, _, vis, _ => (true, vis)
  | fuel + 1, node, vis, rec0 =>
    let vis1 := addId vis node
    let rec1 := addId rec0 node
    ((lookupA g node).getD []).foldl
      (fun st k =>
        if st.1 then st
        else if !(st.2.contains k) then invHasCycle g fuel k st.2 rec1
        else if rec1.contains k then (true, st.2)
        else st)
      (false, vis1)

/-- Acyclicity of a dependency graph: the per-node depth-first search of
`checkNoCyclicDependencies` (fresh visited and recursion sets per start
node) finds no cycle; the fuel exceeds the number of nodes the
traversal can enter. -/
def invAcyclic (g : List (Nat × List Nat)) : Bool :=
  g.all (fun p => !(invHasCycle g
    (g.length + (g.map (fun q => q.2.length)).sum + 2) p.1 [] []).1)

/-- `checkNoCyclicDependencies` from `pkg/invariants/invariants.go`: a
depth-first search from every task id detects no cycle in the
dependency graph. -/
def checkNoCyclicDependencies (ts : List (Nat × Task)) : Bool :=
  invAcyclic (ts.map (fun p => (p.1, p.2.dependencies)))

/-- `checkAuthenticationRequired` from `pkg/invariants/invariants.go`:
every task has a non-empty creator. -/
def checkAuthenticationRequired (ts : List (Nat × Task)) : Bool :=
  ts.all (fun p => p.2.createdBy != "")

/-- `InvariantChecker.CheckAllInvariants` from
`pkg/invariants/invariants.go`: the eight safety-invariant checks in
source order; the Go method returns the first violation as an error,
embedded here as a Bool verdict. -/
def CheckAllInvariants (st : SystemState) : Bool :=
  checkNoOrphanTasks st.tasks st.userTasks &&
    checkTaskOwnership st.tasks st.userTasks &&
    checkValidTaskIds st.tasks st.nextTaskID &&
    checkNoDuplicateTaskIds st.tasks [] &&
    checkValidStateTransitions st.tasks &&
    checkConsistentTimestamps st.tasks &&
    checkNoCyclicDependencies st.tasks &&
    checkAuthenticationRequired st.tasks

/-- Children function of the DFS in `checkCyclicDependencies`
(`task_usecase.go`): stored tasks contribute their dependency sets; the
not-yet-persisted task contributes the requested dependencies. -/
def dfsChildren (newId : Nat) (newDeps : List Nat) (ts : List (Nat × Task))
    (i : Nat) : List Nat :=
  match lookupA ts i with
  | some t => t.dependencies
  | none => if i == newId then newDeps else []

/-- The recursive `hasCycle` closure of `checkCyclicDependencies`,
fuel-bounded: `vis` is the shared visited set, `rec0` the in-progress
recursion stack (the current node's ancestors); the result pairs the
cycle verdict with the updated visited set. -/
def dfsGo (newId : Nat) (newDeps : List Nat) (ts : List (Nat × Task)) :
    Nat → Nat → List Nat → List Nat → Bool × List Nat
  | 0, _, vis, _ => (true, vis)
  | fuel + 1, node, vis, rec0 =>
    let vis1 := addId vis node
    let rec1 := addId rec0 node
    (dfsChildren newId newDeps ts node).foldl
      (fun st k =>
        if st.1 then st
        else if !(st.2.contains k) then dfsGo newId newDeps ts fuel k st.2 rec1
        else if rec1.contains k then (true, st.2)
        else st)
      (false, vis1)

/-- `checkCyclicDependencies` from `task_usecase.go`: depth-first search
from the new task treating its hypothetical edges as present; the fuel
exceeds the number of nodes the traversal can enter. -/
def checkCyclicDependencies (newId : Nat) (newDeps : List Nat)
    (ts : List (Nat × Task)) : Bool :=
  (dfsGo newId newDeps ts
    (ts.length + newDeps.length +
      (ts.map (fun p => p.2.dependencies.length)).sum + 2)
    newId [] []).1

/-- `TaskUseCase.Authenticate`: reject unknown users and users holding a
valid session; otherwise create a session, set the current user, and run
the invariant engine (`token` stands for the randomly generated token,
`now` for `time.Now()`). -/
def Authenticate (s : Store) (userID : String) (token : String) (now : Nat) :
    Except String Session × Store :=
  match lookupA s.users userID with
  | none => (.error "user not found", s)
  | some _ =>
    match Memory.GetSessionByUser s userID now with
    | some _ => (.error "user already has an active session", s)
    | none =>
      let sess : Session :=
        { userID := userID, token := token, active := true,
          createdAt := now, expiresAt := now + 86400 }
      match Memory.CreateSession s sess with
      | (.error e, s1) => (.error e, s1)
      | (.ok _, s1) =>
        let s2 := { s1 with currentUser := some userID }
        if CheckAllInvariants (GetSystemState s2 now) then (.ok sess, s2)
        else (.error "invariant violation", Rollback s2)

/-- `TaskUseCase.Logout`: only the current user may log out; the session
is deactivated and the current user cleared. -/
def Logout (s : Store) (userID : String) (now : Nat) :
    Except String Unit × Store :=
  match s.currentUser with
  | none => (.error "no user currently authenticated", s)
  | some cu =>
    if cu != userID then (.error "user is not the current user", s)
    else
      let s1 :=
        match Memory.GetSessionByUser s userID now with
        | some sess =>
          { s with sessions :=
              (setA s.sessions sess.token { sess with active := false }) }
        | none => s
      (.ok (), { s1 with currentUser := none })

/-- The dependency-validation loop of `TaskUseCase.CreateTask`: each
requested dependency must exist and must not be cancelled. -/
def validateDeps (s : Store) : List Nat → Except String Unit
  | [] => .ok ()
  | d :: rest =>
    match lookupA s.tasks d with
    | none => .error "dependency task does not exist"
    | some dt =>
      if dt.status == statusCancelled then
        .error "cannot depend on cancelled task"
      else validateDeps s rest

/-- `TaskUseCase.CreateTask`: capacity, dependency and cycle checks, the
pending/blocked initial-status rule, domain validation, persistence, id
increment, then the invariant engine. -/
def CreateTask (s : Store) (title description priority assignee : String)
    (dueDate : Option Nat) (tags : List String) (dependencies : List Nat)
    (now : Nat) : Except String Task × Store :=
  match s.currentUser with
  | none => (.error "authentication required", s)
  | some cu =>
    let nextID := s.nextTaskID
    if MaxTasks < nextID then (.error "maximum number of tasks reached", s)
    else
      match validateDeps s dependencies with
      | .error e => (.error e, s)
      | .ok _ =>
        let depMap := dependencies.foldl addId []
        if checkCyclicDependencies nextID depMap s.tasks then
          (.error "cyclic dependency detected", s)
        else
          let status :=
            if 0 < dependencies.length &&
                !(depMap.all (fun d =>
                  match lookupA s.tasks d with
                  | some dt => dt.status == statusCompleted
                  | none => false)) then statusBlocked
            else statusPending
          let task : Task :=
            { id := nextID, title := title, description := description,
              status := status, priority := priority, assignee := assignee,
              createdBy := cu, createdAt := now, updatedAt := now,
              dueDate := dueDate, tags := tags, dependencies := depMap }
          match task.validate with
          | .error e => (.error e, s)
          | .ok _ =>
            match Memory.CreateTask s task with
            | (.error e, s1) => (.error e, s1)
            | (.ok _, s1) =>
              let s2 := { s1 with nextTaskID := s1.nextTaskID + 1 }
              if CheckAllInvariants (GetSystemState s2 now) then (.ok task, s2)
              else (.error "invariant violation after task creation",
                Rollback s2)

/-- The dependency-completion test of `TaskUseCase.UpdateTaskStatus`:
every dependency that exists must be completed. -/
def depsCompleted (s : Store) (t : Task) : Bool :=
  t.dependencies.all (fun d =>
    match lookupA s.tasks d with
    | some dt => dt.status == statusCompleted
    | none => true)

/-- `TaskUseCase.UpdateTaskStatus`: authentication, ownership through the
user's task index, transition legality, the dependency precondition for
`in_progress`, the mutation, then the invariant engine. -/
def UpdateTaskStatus (s : Store) (taskID : Nat) (newStatus : String)
    (now : Nat) : Except String Unit × Store :=
  match s.currentUser with
  | none => (.error "authentication required", s)
  | some cu =>
    match lookupA s.tasks taskID with
    | none => (.error "task not found", s)
    | some task =>
      if !(((lookupA s.userTasks cu).getD []).contains taskID) then
        (.error "user does not have access to task", s)
      else if !(IsValidTransition task.status newStatus) then
        (.error "invalid transition", s)
      else if newStatus == statusInProgress && !(depsCompleted s task) then
        (.error "cannot start task: dependency is not completed", s)
      else
        match Memory.UpdateTask s
          { task with status := newStatus, updatedAt := now } with
        | (.error e, s1) => (.error e, s1)
        | (.ok _, s1) =>
          if CheckAllInvariants (GetSystemState s1 now) then (.ok (), s1)
          else (.error "invariant violation", Rollback s1)

/-- `TaskUseCase.UpdateTaskPriority`: authentication and ownership by the
assignee field, then the unvalidated priority write; no invariant
check follows. -/
def UpdateTaskPriority (s : Store) (taskID : Nat) (newPriority : String)
    (now : Nat) : Except String Unit × Store :=
  match s.currentUser with
  | none => (.error "authentication required", s)
  | some cu =>
    match lookupA s.tasks taskID with
    | none => (.error "task not found", s)
    | some task =>
      if task.assignee != cu then
        (.error "user does not have access to task", s)
      else
        match Memory.UpdateTask s
          { task with priority := newPriority, updatedAt := now } with
        | (.error e, s1) => (.error e, s1)
        | (.ok _, s1) => (.ok (), s1)

/-- `TaskUseCase.ReassignTask`: the assignee or the creator may reassign
to any existing user; the repository moves the index entry and the
use case repeats the index move; no invariant check follows. -/
def ReassignTask (s : Store) (taskID : Nat) (newAssignee : String)
    (now : Nat) : Except String Unit × Store :=
  match s.currentUser with
  | none => (.error "authentication required", s)
  | some cu =>
    match lookupA s.tasks taskID with
    | none => (.error "task not found", s)
    | some task =>
      if task.assignee != cu && task.createdBy != cu then
        (.error "user does not have permission to reassign task", s)
      else if (lookupA s.users newAssignee).isNone then
        (.error "new assignee not found", s)
      else
        let oldAssignee := task.assignee
        match Memory.UpdateTask s
          { task with assignee := newAssignee, updatedAt := now } with
        | (.error e, s1) => (.error e, s1)
        | (.ok _, s1) =>
          (.ok (), { s1 with userTasks :=
            (addToIndex (removeFromIndex s1.userTasks oldAssignee taskID)
              newAssignee taskID) })

/-- `TaskUseCase.UpdateTaskDetails`: ownership by the assignee field,
domain validation of the edited task, then the write; no invariant
check follows. -/
def UpdateTaskDetails (s : Store) (taskID : Nat) (title description : String)
    (dueDate : Option Nat) (now : Nat) : Except String Unit × Store :=
  match s.currentUser with
  | none => (.error "authentication required", s)
  | some cu =>
    match lookupA s.tasks taskID with
    | none => (.error "task not found", s)
    | some task =>
      if task.assignee != cu then
        (.error "user does not have access to task", s)
      else
        let task1 := { task with title := title,
                                 description := description,
                                 dueDate := dueDate, updatedAt := now }
        match task1.validate with
        | .error e => (.error e, s)
        | .ok _ =>
          match Memory.UpdateTask s task1 with
          | (.error e, s1) => (.error e, s1)
          | (.ok _, s1) => (.ok (), s1)

/-- `TaskUseCase.DeleteTask`: only the assignee may delete, only
terminal tasks, and only when no other task depends on it; no invariant
check follows. -/
def DeleteTask (s : Store) (taskID : Nat) : Except String Unit × Store :=
  match s.currentUser with
  | none => (.error "authentication required", s)
  | some cu =>
    match lookupA s.tasks taskID with
    | none => (.error "task not found", s)
    | some task =>
      if task.assignee != cu then
        (.error "user does not have permission to delete task", s)
      else if !task.canDelete then
        (.error "can only delete completed or cancelled tasks", s)
      else if !(Memory.GetTasksByDependency s taskID).isEmpty then
        (.error "cannot delete task: tasks depend on it", s)
      else
        match Memory.DeleteTask s taskID with
        | (.error e, s1) => (.error e, s1)
        | (.ok _, s1) => (.ok (), s1)

/-- The unblock loop of `TaskUseCase.CheckDependencies`: `allT` is the
snapshot of all tasks taken before the loop, `cnt` the running count. -/
def sweepGo (allT : List (Nat × Task)) (now : Nat) :
    List Task → Nat → Store → Except String Nat × Store
  | [], cnt, s => (.ok cnt, s)
  | t :: rest, cnt, s =>
    if ShouldUnblock t allT then
      match Memory.UpdateTask s
        { t with status := statusPending, updatedAt := now } with
      | (.error e, s1) => (.error e, s1)
      | (.ok _, s1) => sweepGo allT now rest (cnt + 1) s1
    else sweepGo allT now rest cnt s

/-- `TaskUseCase.CheckDependencies`: unblock every blocked task whose
dependencies are all completed and count them; no invariant check
follows. -/
def CheckDependencies (s : Store) (now : Nat) : Except String Nat × Store :=
  sweepGo s.tasks now (Memory.GetTasksByStatus s statusBlocked) 0 s

/-- The precondition loop of `TaskUseCase.BulkUpdateStatus`: each task
must exist, be owned by the current user, and admit the transition; no
dependency check is made. -/
def bulkCheck (s : Store) (cu : String) (st : String) :
    List Nat → Except String Unit
  | [] => .ok ()
  | i :: rest =>
    match lookupA s.tasks i with
    | none => .error "task not found"
    | some t =>
      if t.assignee != cu then .error "user does not have access to task"
      else if !(IsValidTransition t.status st) then
        .error "invalid transition for task"
      else bulkCheck s cu st rest

/-- `TaskUseCase.BulkUpdateStatus`: check all preconditions, apply the
bulk mutation through the repository, then run the invariant engine. -/
def BulkUpdateStatus (s : Store) (taskIDs : List Nat) (newStatus : String)
    (now : Nat) : Except String Unit × Store :=
  match s.currentUser with
  | none => (.error "authentication required", s)
  | some cu =>
    match bulkCheck s cu newStatus taskIDs with
    | .error e => (.error e, s)
    | .ok _ =>
      let s1 := { s with tasks :=
        Memory.BulkUpdateStatus s.tasks taskIDs newStatus now }
      if CheckAllInvariants (GetSystemState s1 now) then (.ok (), s1)
      else (.error "invariant violation after bulk update", Rollback s1)

/-! ## Concrete fixtures for witnesses and counterexamples -/

/-- A user record with the given id. -/
def mkUser (n : String) : User := { id := n, name := n, email := n }

/-- Task 1: a pending task of alice with no dependencies. -/
def taskPend : Task :=
  { id := 1, title := "t1", description := "d1", status := statusPending,
    priority := priorityLow, assignee := "alice", createdBy := "alice",
    createdAt := 1, updatedAt := 1, dueDate := none, tags := [],
    dependencies := [] }

/-- A store holding only `taskPend`, with alice authenticated. -/
def storeA : Store :=
  { tasks := [(1, taskPend)],
    users := [("alice", mkUser "alice"), ("bob", mkUser "bob")],
    sessions := [], userTasks := [("alice", [1])], nextTaskID := 2,
    currentUser := some "alice", clock := 0 }

/-- Task 2: a blocked task of alice depending on task 1 (not completed). -/
def taskBlk : Task :=
  { id := 2, title := "t2", description := "d2", status := statusBlocked,
    priority := priorityLow, assignee := "alice", createdBy := "alice",
    createdAt := 1, updatedAt := 1, dueDate := none, tags := [],
    dependencies := [1] }

/-- A store holding `taskPend` and `taskBlk`, with alice authenticated. -/
def storeB : Store :=
  { tasks := [(1, taskPend), (2, taskBlk)],
    users := [("alice", mkUser "alice"), ("bob", mkUser "bob")],
    sessions := [], userTasks := [("alice", [1, 2])], nextTaskID := 3,
    currentUser := some "alice", clock := 0 }

/-- Task 1 in completed state. -/
def taskDone : Task :=
  { id := 1, title := "t1", description := "d1", status := statusCompleted,
    priority := priorityLow, assignee := "alice", createdBy := "alice",
    createdAt := 1, updatedAt := 1, dueDate := none, tags := [],
    dependencies := [] }

/-- A store holding only the completed `taskDone`. -/
def storeC : Store :=
  { tasks := [(1, taskDone)],
    users := [("alice", mkUser "alice"), ("bob", mkUser "bob")],
    sessions := [], userTasks := [("alice", [1])], nextTaskID := 2,
    currentUser := some "alice", clock := 0 }

/-- A task with an empty creator field: it violates the authenticated
provenance invariant of the verification engine. -/
def taskNoCreator : Task :=
  { id := 1, title := "t1", description := "d1", status := statusPending,
    priority := priorityLow, assignee := "alice", createdBy := "",
    createdAt := 1, updatedAt := 1, dueDate := none, tags := [],
    dependencies := [] }

/-- A store whose task 1 violates the provenance invariant while task 2
is well-formed; alice is authenticated. -/
def storeV : Store :=
  { tasks := [(1, taskNoCreator), (2, { taskBlk with dependencies := [] })],
    users := [("alice", mkUser "alice"), ("bob", mkUser "bob")],
    sessions := [], userTasks := [("alice", [1, 2])], nextTaskID := 3,
    currentUser := some "alice", clock := 0 }

/-- A task assigned to bob but created by alice. -/
def taskBobByAlice : Task :=
  { id := 1, title := "t1", description := "d1", status := statusPending,
    priority := priorityLow, assignee := "bob", createdBy := "alice",
    createdAt := 1, updatedAt := 1, dueDate := none, tags := [],
    dependencies := [] }

/-- A store where alice (the creator, not the assignee) is
authenticated and carol exists as a reassignment target. -/
def storeR : Store :=
  { tasks := [(1, taskBobByAlice)],
    users := [("alice", mkUser "alice"), ("bob", mkUser "bob"),
      ("carol", mkUser "carol")],
    sessions := [], userTasks := [("bob", [1])], nextTaskID := 2,
    currentUser := some "alice", clock := 0 }

/-- The task that `CreateTask storeC "t2" "d2" "low" "alice" none [] [1] 5`
creates: its single dependency (task 1) is completed, so it starts
pending. -/
def taskNew : Task :=
  { id := 2, title := "t2", description := "d2", status := statusPending,
    priority := priorityLow, assignee := "alice", createdBy := "alice",
    createdAt := 5, updatedAt := 5, dueDate := none, tags := [],
    dependencies := [1] }

/-- An active session for alice, valid until time 100. -/
def sessAlice : Session :=
  { userID := "alice", token := "tokA", active := true, createdAt := 0,
    expiresAt := 100 }

/-- The store `storeA` with the active session `sessAlice` for alice,
alice being the authenticated current user. -/
def storeS : Store :=
  { storeA with sessions := [("tokA", sessAlice)] }

/-! ## Association-list lemmas -/

theorem lookupA_nil {α β : Type} [BEq α] (k : α) :
    lookupA ([] : List (α × β)) k = none := rfl

theorem lookupA_cons {α β : Type} [BEq α] (p : α × β) (l : List (α × β))
    (k : α) :
    lookupA (p :: l) k = if p.1 == k then some p.2 else lookupA l k := by
  by_cases h : p.1 == k <;> simp [lookupA, List.find?_cons, h]

theorem lookupA_mem {α β : Type} [BEq α] [LawfulBEq α] {l : List (α × β)}
    {k : α} {v : β} (h : lookupA l k = some v) : (k, v) ∈ l := by
  induction l with
  | nil => simp [lookupA] at h
  | cons p rest ih =>
    rw [lookupA_cons] at h
    by_cases hp : p.1 == k
    · simp [hp] at h
      have hk : p.1 = k := eq_of_beq hp
      have hkv : (k, v) = p := by
        rw [← hk, ← h]
      rw [hkv]
      exact List.mem_cons_self p rest
    · simp [hp] at h
      exact .tail _ (ih h)

theorem mem_setA {α β : Type} [BEq α] {l : List (α × β)} {k : α} {v : β}
    {x : α × β} (h : x ∈ setA l k v) : x = (k, v) ∨ x ∈ l := by
  induction l with
  | nil => simpa [setA] using h
  | cons p rest ih =>
    rw [setA] at h
    by_cases hp : p.1 == k
    · simp only [hp, if_pos] at h
      rcases List.mem_cons.1 h with h1 | h1
      · exact .inl h1
      · exact .inr (.tail _ h1)
    · simp only [hp, if_neg, Bool.false_eq_true, not_false_iff] at h
      rcases List.mem_cons.1 h with h1 | h1
      · exact .inr (h1 ▸ List.mem_cons_self p rest)
      · rcases ih h1 with h2 | h2
        · exact .inl h2
        · exact .inr (.tail _ h2)

theorem all_setA {α β : Type} [BEq α] {P : α × β → Bool} {l : List (α × β)}
    {k : α} {v : β} (hl : l.all P = true) (hv : P (k, v) = true) :
    (setA l k v).all P = true := by
  rw [List.all_eq_true] at hl ⊢
  intro x hx
  rcases mem_setA hx with h | h
  · exact h ▸ hv
  · exact hl x h

theorem map_setA {α β γ : Type} [BEq α] [LawfulBEq α] (f : α × β → γ)
    {l : List (α × β)} {k : α} {v w : β} (hw : lookupA l k = some w)
    (hf : f (k, v) = f (k, w)) : (setA l k v).map f = l.map f := by
  induction l with
  | nil => simp [lookupA] at hw
  | cons p rest ih =>
    rw [lookupA_cons] at hw
    rw [setA]
    by_cases hp : p.1 == k
    · simp only [hp, if_pos] at hw ⊢
      simp only [List.map_cons]
      have hk : p.1 = k := eq_of_beq hp
      have : w = p.2 := by simpa using hw.symm
      rw [hf, this, ← hk]
    · simp only [hp, if_neg, Bool.false_eq_true, not_false_iff] at hw ⊢
      simp only [List.map_cons, ih hw]

theorem lookupA_setA_self {α β : Type} [BEq α] [LawfulBEq α]
    (l : List (α × β)) (k : α) (v : β) : lookupA (setA l k v) k = some v := by
  induction l with
  | nil => simp [setA, lookupA, List.find?]
  | cons p rest ih =>
    rw [setA]
    by_cases hp : p.1 == k
    · rw [if_pos hp, lookupA_cons]
      simp
    · rw [if_neg hp, lookupA_cons]
      simp [hp, ih]

theorem lookupA_setA_ne {α β : Type} [BEq α] [LawfulBEq α]
    {l : List (α × β)} {k k' : α} (v : β) (h : k' ≠ k) :
    lookupA (setA l k v) k' = lookupA l k' := by
  induction l with
  | nil =>
    have : (k == k') = false := by
      simpa using fun hc => h hc.symm
    simp [setA, lookupA_cons, lookupA_nil, this]
  | cons p rest ih =>
    rw [setA]
    by_cases hp : p.1 == k
    · have hk : p.1 = k := eq_of_beq hp
      have h1 : (k == k') = false := by
        simpa using fun hc => h hc.symm
      rw [if_pos hp, lookupA_cons, lookupA_cons]
      simp [h1, hk]
    · rw [if_neg hp, lookupA_cons, lookupA_cons, ih]

theorem keys_setA {α β : Type} [BEq α] [LawfulBEq α] {l : List (α × β)}
    {k : α} (v : β) (h : (lookupA l k).isSome) :
    (setA l k v).map Prod.fst = l.map Prod.fst := by
  induction l with
  | nil => simp [lookupA] at h
  | cons p rest ih =>
    rw [lookupA_cons] at h
    rw [setA]
    by_cases hp : p.1 == k
    · simp only [hp, if_pos, List.map_cons]
      rw [eq_of_beq hp]
    · simp only [hp, if_neg, Bool.false_eq_true, not_false_iff,
        List.map_cons]
      simp only [hp, if_neg, Bool.false_eq_true, not_false_iff] at h
      rw [ih h]

theorem setA_absent {α β : Type} [BEq α] {l : List (α × β)} {k : α} (v : β)
    (h : lookupA l k = none) : setA l k v = l ++ [(k, v)] := by
  induction l with
  | nil => simp [setA]
  | cons p rest ih =>
    rw [lookupA_cons] at h
    by_cases hp : p.1 == k
    · simp [hp] at h
    · rw [setA]
      simp only [hp, if_neg, Bool.false_eq_true, not_false_iff,
        List.cons_append, List.cons.injEq, true_and]
      simp only [hp, if_neg, Bool.false_eq_true, not_false_iff] at h
      exact ih h

theorem mem_eraseA {α β : Type} [BEq α] {l : List (α × β)} {k : α}
    {x : α × β} (h : x ∈ eraseA l k) : x ∈ l := by
  induction l with
  | nil => simp [eraseA] at h
  | cons p rest ih =>
    rw [eraseA] at h
    by_cases hp : p.1 == k
    · simp only [hp, if_pos] at h
      exact .tail _ h
    · simp only [hp, if_neg, Bool.false_eq_true, not_false_iff] at h
      rcases List.mem_cons.1 h with h1 | h1
      · exact h1 ▸ List.mem_cons_self p rest
      · exact .tail _ (ih h1)

theorem lookupA_eraseA_self {α β : Type} [BEq α] [LawfulBEq α]
    {l : List (α × β)} {k : α} (hnd : (l.map Prod.fst).Nodup) :
    lookupA (eraseA l k) k = none := by
  induction l with
  | nil => simp [eraseA, lookupA]
  | cons p rest ih =>
    simp only [List.map_cons, List.nodup_cons] at hnd
    rw [eraseA]
    by_cases hp : p.1 == k
    · simp only [hp, if_pos]
      have hk : p.1 = k := eq_of_beq hp
      rw [lookupA]
      have hfind : rest.find? (fun q => q.1 == k) = none := by
        rw [List.find?_eq_none]
        intro x hx
        simp only [beq_iff_eq]
        intro hxk
        exact hnd.1 (hk ▸ hxk ▸ List.mem_map_of_mem Prod.fst hx)
      rw [hfind]
      rfl
    · simp only [hp, if_neg, Bool.false_eq_true, not_false_iff]
      rw [lookupA_cons]
      simp [hp, ih hnd.2]

theorem lookupA_of_mem_nodup {α β : Type} [BEq α] [LawfulBEq α]
    {l : List (α × β)} {k : α} {v : β} (hnd : (l.map Prod.fst).Nodup)
    (h : (k, v) ∈ l) : lookupA l k = some v := by
  induction l with
  | nil => simp at h
  | cons p rest ih =>
    simp only [List.map_cons, List.nodup_cons] at hnd
    rcases List.mem_cons.1 h with h1 | h1
    · rw [← h1, lookupA_cons]
      simp
    · rw [lookupA_cons]
      by_cases hp : p.1 == k
      · exfalso
        have hk : p.1 = k := eq_of_beq hp
        exact hnd.1 (hk ▸ List.mem_map_of_mem Prod.fst h1)
      · simp [hp, ih hnd.2 h1]

theorem keys_eraseA_sublist {α β : Type} [BEq α] (l : List (α × β)) (k : α) :
    ((eraseA l k).map Prod.fst).Sublist (l.map Prod.fst) := by
  induction l with
  | nil => simp [eraseA]
  | cons p rest ih =>
    rw [eraseA]
    by_cases hp : p.1 == k
    · simp only [hp, if_pos, List.map_cons]
      exact (List.sublist_cons_self _ _)
    · simp only [hp, if_neg, Bool.false_eq_true, not_false_iff,
        List.map_cons]
      exact ih.cons₂ _

/-! ## Dependency-set lemmas -/

theorem mem_addId {l : List Nat} {i x : Nat} :
    x ∈ addId l i ↔ x ∈ l ∨ x = i := by
  unfold addId
  by_cases h : l.contains i = true
  · rw [if_pos h]
    constructor
    · exact fun hx => .inl hx
    · rintro (hx | rfl)
      · exact hx
      · simpa using h
  · rw [if_neg h]
    simp

theorem mem_foldl_addId :
    ∀ (ds l : List Nat) (x : Nat), x ∈ ds.foldl addId l ↔ x ∈ l ∨ x ∈ ds
  | [], l, x => by simp
  | d :: ds, l, x => by
    rw [List.foldl_cons, mem_foldl_addId ds (addId l d) x, mem_addId]
    constructor
    · rintro ((h | rfl) | h)
      · exact .inl h
      · exact .inr (List.mem_cons_self _ _)
      · exact .inr (.tail _ h)
    · rintro (h | h)
      · exact .inl (.inl h)
      · rcases List.mem_cons.1 h with rfl | h2
        · exact .inl (.inr rfl)
        · exact .inr h2

theorem all_foldl_addId (P : Nat → Bool) (ds : List Nat) :
    (ds.foldl addId []).all P = ds.all P := by
  have h1 : ((ds.foldl addId []).all P = true) ↔ (ds.all P = true) := by
    rw [List.all_eq_true, List.all_eq_true]
    constructor
    · intro h x hx
      exact h x ((mem_foldl_addId ds [] x).2 (.inr hx))
    · intro h x hx
      rcases (mem_foldl_addId ds [] x).1 hx with h2 | h2
      · simp at h2
      · exact h x h2
  cases ha : (ds.foldl addId []).all P <;> cases hb : ds.all P <;>
    simp_all

/-- The initial-status condition computed by `CreateTask` equals the
negation of the condition stated by the spec (empty dependency set, or
all requested dependencies completed). -/
theorem createStatus_cond (s : Store) (deps : List Nat) :
    (decide (0 < deps.length) && !((deps.foldl addId []).all (fun d =>
      match lookupA s.tasks d with
      | some dt => dt.status == statusCompleted
      | none => false))) =
    !(deps.isEmpty || deps.all (fun d =>
      (lookupA s.tasks d).map Task.status == some statusCompleted)) := by
  have hP : (fun d => match lookupA s.tasks d with
      | some dt => dt.status == statusCompleted
      | none => false) = (fun d =>
      (lookupA s.tasks d).map Task.status == some statusCompleted) := by
    funext d
    cases lookupA s.tasks d <;> rfl
  rw [hP, all_foldl_addId]
  cases hd : deps.isEmpty
  · have hlen : decide (0 < deps.length) = true := by
      cases deps
      · simp at hd
      · simp
    rw [hlen]
    simp
  · have hnil : deps = [] := by
      cases deps
      · rfl
      · simp at hd
    subst hnil
    simp

/-! ## Claim theorems -/

/-- C6: for every successful CreateTask, the created task's initial
status is pending if the requested dependency set is empty or every
requested dependency already has status completed in the pre-state, and
blocked otherwise. -/
theorem createTask_initial_status (s : Store)
    (ti de pr asg : String) (dd : Option Nat) (tg : List String)
    (deps : List Nat) (now : Nat) (t : Task)
    (h : (CreateTask s ti de pr asg dd tg deps now).1 = .ok t) :
    t.status =
      if deps.isEmpty || deps.all (fun d =>
          (lookupA s.tasks d).map Task.status == some statusCompleted)
      then statusPending else statusBlocked := by
  simp only [CreateTask] at h
  split at h
  · simp at h
  · split at h
    · simp at h
    · split at h
      · simp at h
      · split at h
        · simp at h
        · split at h
          · simp at h
          · split at h
            · simp at h
            · split at h
              · simp only [Prod.fst] at h
                have ht : t.status =
                    (if decide (0 < deps.length) &&
                        !((deps.foldl addId []).all (fun d =>
                          match lookupA s.tasks d with
                          | some dt => dt.status == statusCompleted
                          | none => false))
                      then statusBlocked else statusPending) := by
                  cases h
                  rfl
                rw [ht, createStatus_cond]
                cases hc : (deps.isEmpty || deps.all (fun d =>
                  (lookupA s.tasks d).map Task.status ==
                    some statusCompleted)) <;> simp
              · simp at h

theorem createTask_initial_status_witness :
    ∃ t : Task,
      (CreateTask storeC "t2" "d2" "low" "alice" none [] [1] 5).1 =
        .ok t ∧ t.status = statusPending := by
  have h1 : (CreateTask storeC "t2" "d2" "low" "alice" none [] [1] 5).1 =
      .ok taskNew := rfl
  refine ⟨_, h1, ?_⟩
  have h2 := createTask_initial_status storeC "t2" "d2" "low" "alice"
    none [] [1] 5 _ h1
  rw [h2]
  decide

/-- C2 counterexample: in `storeB`, task 2 is blocked with its only
dependency (task 1) still pending, yet `BulkUpdateStatus` moves it to
in_progress and succeeds — the bulk path never checks dependencies. -/
theorem bulkUpdateStatus_incomplete_dep_counterexample :
    lookupA storeB.tasks 2 = some taskBlk ∧
    taskBlk.dependencies = [1] ∧
    (lookupA storeB.tasks 1).map Task.status = some statusPending ∧
    (BulkUpdateStatus storeB [2] statusInProgress 5).1 = .ok () ∧
    (lookupA (BulkUpdateStatus storeB [2] statusInProgress 5).2.tasks 2).map
      Task.status = some statusInProgress :=
  ⟨rfl, rfl, rfl, rfl, rfl⟩

/-- C2 (amended): a task never enters in_progress through UpdateStatus
while a dependency is incomplete — success of
`UpdateTaskStatus _ _ in_progress _` implies every existing dependency
of the task was completed. (BulkUpdateStatus performs no such check.) -/
theorem updateStatus_requires_completed_deps (s : Store) (id : Nat)
    (now : Nat) (h : (UpdateTaskStatus s id statusInProgress now).1 = .ok ()) :
    ∃ t, lookupA s.tasks id = some t ∧ depsCompleted s t = true := by
  simp only [UpdateTaskStatus] at h
  split at h
  · simp at h
  · split at h
    · simp at h
    · rename_i task htask
      split at h
      · simp at h
      · split at h
        · simp at h
        · split at h
          · simp at h
          · rename_i hdep
            refine ⟨task, htask, ?_⟩
            cases hd : depsCompleted s task
            · exact absurd (by rw [hd]; decide) hdep
            · rfl

theorem updateStatus_requires_completed_deps_witness :
    ∃ t, lookupA storeB.tasks 1 = some t ∧ depsCompleted storeB t = true :=
  updateStatus_requires_completed_deps storeB 1 5 rfl

/-- C9 counterexample: `UpdateTaskPriority` stores an arbitrary priority
without validation — after a successful call with priority "urgent" the
stored priority is "urgent", which is not one of the four legal
values. -/
theorem updateTaskPriority_invalid_priority_counterexample :
    (UpdateTaskPriority storeA 1 "urgent" 7).1 = .ok () ∧
    (lookupA (UpdateTaskPriority storeA 1 "urgent" 7).2.tasks 1).map
      Task.priority = some "urgent" ∧
    isValidPriority "urgent" = false :=
  ⟨rfl, rfl, rfl⟩

/-- C4 counterexample: in `storeR` the authenticated user alice is the
creator but not the assignee of task 1, and carol exists, yet
`ReassignTask` succeeds — the code also authorizes the creator, so the
claim that reassignment fails whenever the current user is not the
assignee is false. -/
theorem reassign_by_creator_counterexample :
    storeR.currentUser = some "alice" ∧
    lookupA storeR.tasks 1 = some taskBobByAlice ∧
    taskBobByAlice.assignee = "bob" ∧
    taskBobByAlice.createdBy = "alice" ∧
    (lookupA storeR.users "carol").isSome = true ∧
    (ReassignTask storeR 1 "carol" 7).1 = .ok () :=
  ⟨rfl, rfl, rfl, rfl, rfl, rfl⟩

/-- C4 (amended): for an existing task (with consistent id field),
Reassign succeeds exactly when a user is authenticated, that user is the
task's assignee or its creator, and the new assignee exists; it fails in
every other case. -/
theorem reassignTask_failure_conditions (s : Store) (id : Nat) (t : Task)
    (newA : String) (now : Nat)
    (ht : lookupA s.tasks id = some t) (hid : t.id = id) :
    (ReassignTask s id newA now).1 = .ok () ↔
      ((∃ cu, s.currentUser = some cu ∧
          (t.assignee = cu ∨ t.createdBy = cu)) ∧
        (lookupA s.users newA).isSome = true) := by
  simp only [ReassignTask]
  cases hcu : s.currentUser with
  | none =>
    simp [hcu]
  | some cu =>
    simp only [hcu, ht]
    by_cases hperm : (t.assignee != cu && t.createdBy != cu) = true
    · rw [if_pos hperm]
      simp only [Bool.and_eq_true, bne_iff_ne] at hperm
      constructor
      · intro hcontr
        simp at hcontr
      · rintro ⟨⟨cu2, hcu2, hor⟩, _⟩
        injection hcu2 with hcu2
        subst hcu2
        rcases hor with h1 | h1
        · exact absurd h1 hperm.1
        · exact absurd h1 hperm.2
    · rw [if_neg hperm]
      by_cases hus : (lookupA s.users newA).isNone = true
      · rw [if_pos hus]
        constructor
        · intro hcontr
          simp at hcontr
        · rintro ⟨_, h2⟩
          rw [Option.isNone_iff_eq_none] at hus
          rw [hus] at h2
          simp at h2
      · rw [if_neg hus]
        simp only [Memory.UpdateTask, hid, ht]
        constructor
        · intro _
          refine ⟨⟨cu, rfl, ?_⟩, ?_⟩
          · by_cases ha : t.assignee = cu
            · exact .inl ha
            · right
              by_contra hb
              apply hperm
              simp [ha, hb]
          · cases hL : lookupA s.users newA
            · exact absurd (by simp [hL]) hus
            · simp
        · intro _
          trivial

theorem reassignTask_failure_conditions_witness :
    (ReassignTask storeR 1 "carol" 7).1 = .ok () :=
  (reassignTask_failure_conditions storeR 1 taskBobByAlice "carol" 7 rfl
    rfl).2 ⟨⟨"alice", rfl, .inr rfl⟩, rfl⟩

theorem mem_key_isSome {α β : Type} [BEq α] [LawfulBEq α]
    {l : List (α × β)} {k : α} {v : β} (h : (k, v) ∈ l) :
    (lookupA l k).isSome = true := by
  induction l with
  | nil => simp at h
  | cons p rest ih =>
    rw [lookupA_cons]
    by_cases hp : p.1 == k
    · simp [hp]
    · rcases List.mem_cons.1 h with h1 | h1
      · exfalso
        apply hp
        rw [← h1]
        simp
      · simp only [hp, Bool.false_eq_true, if_false]
        exact ih h1

theorem lookupA_setA_isSome {α β : Type} [BEq α] [LawfulBEq α]
    {l : List (α × β)} {x k : α} (v : β)
    (h : (lookupA l x).isSome = true) :
    (lookupA (setA l k v) x).isSome = true := by
  by_cases hx : x = k
  · subst hx
    rw [lookupA_setA_self]
    rfl
  · rw [lookupA_setA_ne v hx]
    exact h

/-- The unblock loop of CheckDependencies never fails when every task it
processes is present in the store. -/
theorem sweepGo_ok (allT : List (Nat × Task)) (now : Nat) :
    ∀ (l : List Task) (cnt : Nat) (s : Store),
      (∀ t ∈ l, (lookupA s.tasks t.id).isSome = true) →
      ∃ n s', sweepGo allT now l cnt s = (.ok n, s')
  | [], cnt, s, _ => ⟨cnt, s, rfl⟩
  | t :: rest, cnt, s, h => by
    rw [sweepGo]
    by_cases hu : ShouldUnblock t allT = true
    · rw [if_pos hu]
      have h0 : (lookupA s.tasks t.id).isSome = true :=
        h t (List.mem_cons_self t rest)
      cases hL : lookupA s.tasks t.id with
      | none => rw [hL] at h0; simp at h0
      | some ex =>
        simp only [Memory.UpdateTask, hL]
        exact sweepGo_ok allT now rest (cnt + 1) _
          (fun t2 ht2 => lookupA_setA_isSome _ (h t2 (.tail _ ht2)))
    · rw [if_neg hu]
      exact sweepGo_ok allT now rest cnt s
        (fun t2 ht2 => h t2 (.tail _ ht2))

theorem mem_map_filter_tasks {ts : List (Nat × Task)} {f : Nat × Task → Bool}
    {t : Task} (h : t ∈ (ts.filter f).map Prod.snd) :
    ∃ p ∈ ts, p.2 = t ∧ f p = true := by
  rcases List.mem_map.1 h with ⟨p, hp, hpt⟩
  rcases List.mem_filter.1 hp with ⟨hmem, hf⟩
  exact ⟨p, hmem, hpt, hf⟩

/-- C3 counterexample: `storeV` contains a task violating the
authenticated-provenance invariant; `UpdateTaskPriority` on the other
(well-formed) task succeeds even though the invariant engine rejects the
resulting snapshot — the operation never invokes the engine. -/
theorem updateTaskPriority_skips_invariants_counterexample :
    (UpdateTaskPriority storeV 2 priorityHigh 9).1 = .ok () ∧
    CheckAllInvariants
      (GetSystemState (UpdateTaskPriority storeV 2 priorityHigh 9).2 9) =
      false :=
  ⟨rfl, rfl⟩

/-- C3 (amended): the invariant engine runs after Authenticate,
CreateTask, UpdateStatus and BulkUpdateStatus — each of these succeeds
only if the engine accepts the resulting snapshot — while
UpdatePriority, Reassign, UpdateDetails, Delete and CheckDependencies
apply their mutation and return without consulting the engine (they
succeed once their own preconditions hold, whatever the invariant state
of the store). -/
theorem invariant_engine_coverage :
    (∀ (s : Store) (id : Nat) (st : String) (now : Nat) (s' : Store),
      UpdateTaskStatus s id st now = (.ok (), s') →
      CheckAllInvariants (GetSystemState s' now) = true) ∧
    (∀ (s : Store) (ti de pr asg : String) (dd : Option Nat)
      (tg : List String) (deps : List Nat) (now : Nat) (t : Task)
      (s' : Store),
      CreateTask s ti de pr asg dd tg deps now = (.ok t, s') →
      CheckAllInvariants (GetSystemState s' now) = true) ∧
    (∀ (s : Store) (u tok : String) (now : Nat) (sess : Session)
      (s' : Store),
      Authenticate s u tok now = (.ok sess, s') →
      CheckAllInvariants (GetSystemState s' now) = true) ∧
    (∀ (s : Store) (ids : List Nat) (st : String) (now : Nat) (s' : Store),
      BulkUpdateStatus s ids st now = (.ok (), s') →
      CheckAllInvariants (GetSystemState s' now) = true) ∧
    (∀ (s : Store) (id : Nat) (p : String) (now : Nat) (cu : String)
      (t : Task), s.currentUser = some cu → lookupA s.tasks id = some t →
      t.assignee = cu → t.id = id →
      (UpdateTaskPriority s id p now).1 = .ok ()) ∧
    (∀ (s : Store) (id : Nat) (na : String) (now : Nat) (cu : String)
      (t : Task), s.currentUser = some cu → lookupA s.tasks id = some t →
      (t.assignee = cu ∨ t.createdBy = cu) → t.id = id →
      (lookupA s.users na).isSome = true →
      (ReassignTask s id na now).1 = .ok ()) ∧
    (∀ (s : Store) (id : Nat) (ti de : String) (dd : Option Nat) (now : Nat)
      (cu : String) (t : Task),
      s.currentUser = some cu → lookupA s.tasks id = some t →
      t.assignee = cu → t.id = id →
      Task.validate { t with title := ti,
                             description := de,
                             dueDate := dd,
                             updatedAt := now } = .ok () →
      (UpdateTaskDetails s id ti de dd now).1 = .ok ()) ∧
    (∀ (s : Store) (id : Nat) (cu : String) (t : Task),
      s.currentUser = some cu → lookupA s.tasks id = some t →
      t.assignee = cu → t.canDelete = true →
      Memory.GetTasksByDependency s id = [] →
      (DeleteTask s id).1 = .ok ()) ∧
    (∀ (s : Store) (now : Nat), (∀ p ∈ s.tasks, p.2.id = p.1) →
      ∃ n, (CheckDependencies s now).1 = .ok n) := by
  refine ⟨?_, ?_, ?_, ?_, ?_, ?_, ?_, ?_, ?_⟩
  · intro s id st now s' h
    simp only [UpdateTaskStatus] at h
    split at h
    · simp at h
    · split at h
      · simp at h
      · split at h
        · simp at h
        · split at h
          · simp at h
          · split at h
            · simp at h
            · split at h
              · simp at h
              · split at h
                · rename_i hinv
                  injection h with h1 h2
                  rw [← h2]
                  exact hinv
                · simp at h
  · intro s ti de pr asg dd tg deps now t s' h
    simp only [CreateTask] at h
    split at h
    · simp at h
    · split at h
      · simp at h
      · split at h
        · simp at h
        · split at h
          · simp at h
          · split at h
            · simp at h
            · split at h
              · simp at h
              · split at h
                · rename_i hinv
                  injection h with h1 h2
                  rw [← h2]
                  exact hinv
                · simp at h
  · intro s u tok now sess s' h
    simp only [Authenticate] at h
    split at h
    · simp at h
    · split at h
      · simp at h
      · split at h
        · simp at h
        · split at h
          · rename_i hinv
            injection h with h1 h2
            rw [← h2]
            exact hinv
          · simp at h
  · intro s ids st now s' h
    simp only [BulkUpdateStatus] at h
    split at h
    · simp at h
    · split at h
      · simp at h
      · split at h
        · rename_i hinv
          injection h with h1 h2
          rw [← h2]
          exact hinv
        · simp at h
  · intro s id p now cu t hcu ht ha hid
    simp only [UpdateTaskPriority, hcu, ht, Memory.UpdateTask]
    have h1 : (t.assignee != cu) = false := by simp [ha]
    simp [h1, hid, ht]
  · intro s id na now cu t hcu ht hor hid hus
    simp only [ReassignTask, hcu, ht, Memory.UpdateTask]
    have h1 : (t.assignee != cu && t.createdBy != cu) = false := by
      rcases hor with h2 | h2 <;> simp [h2]
    have h2 : (lookupA s.users na).isNone = false := by
      cases hL : lookupA s.users na
      · rw [hL] at hus; simp at hus
      · rfl
    simp [h1, h2, hid, ht]
  · intro s id ti de dd now cu t hcu ht ha hid hval
    simp only [UpdateTaskDetails, hcu, ht, Memory.UpdateTask]
    have h1 : (t.assignee != cu) = false := by simp [ha]
    rw [hid] at hval
    simp [h1, hval, hid, ht]
  · intro s id cu t hcu ht ha hdel hdeps
    simp only [DeleteTask, hcu, ht, Memory.DeleteTask]
    have h1 : (t.assignee != cu) = false := by simp [ha]
    simp [h1, hdel, hdeps, ht]
  · intro s now hids
    have h : ∀ t ∈ Memory.GetTasksByStatus s statusBlocked,
        (lookupA s.tasks t.id).isSome = true := by
      intro t ht
      rcases mem_map_filter_tasks ht with ⟨p, hp, hpt, _⟩
      have : t.id = p.1 := by rw [← hpt]; exact hids p hp
      rw [this]
      have hx : (p.1, p.2) ∈ s.tasks := by
        cases p
        exact hp
      exact mem_key_isSome hx
    rcases sweepGo_ok s.tasks now (Memory.GetTasksByStatus s statusBlocked)
      0 s h with ⟨n, s', hs⟩
    exact ⟨n, by rw [CheckDependencies, hs]⟩

theorem invariant_engine_coverage_witness :
    (UpdateTaskPriority storeA 1 priorityHigh 7).1 = .ok () :=
  invariant_engine_coverage.2.2.2.2.1 storeA 1 priorityHigh 7 "alice"
    taskPend rfl rfl rfl rfl

/-- C5: when the post-mutation invariant check fails in CreateTask, the
operation returns an error but the already-applied mutation (the new
task, id 3) remains visible in the returned store, which differs from
the pre-state; Rollback is a no-op, so nothing is restored. -/
theorem createTask_invariant_failure_persists :
    (CreateTask storeV "t3" "d3" "low" "alice" none [] [] 9).1 =
      .error "invariant violation after task creation" ∧
    (lookupA (CreateTask storeV "t3" "d3" "low" "alice" none [] [] 9).2.tasks
      3).isSome = true ∧
    (CreateTask storeV "t3" "d3" "low" "alice" none [] [] 9).2 ≠ storeV ∧
    (∀ s : Store, Rollback s = s) :=
  ⟨rfl, rfl, by decide, fun _ => rfl⟩

/-- C8: Delete, invoked by the authenticated assignee, fails when the
task's status is not completed or cancelled; fails when at least one
task lists it as a dependency (whatever that dependent's status); and
for a terminal task with no dependents it succeeds, removing the task
from the task map and from its assignee's index. -/
theorem deleteTask_spec (s : Store) (cu : String) (id : Nat) (t : Task)
    (hcu : s.currentUser = some cu)
    (ht : lookupA s.tasks id = some t)
    (ha : t.assignee = cu)
    (hnd : (s.tasks.map Prod.fst).Nodup)
    (hln : ((lookupA s.userTasks t.assignee).getD []).Nodup) :
    (t.canDelete = false →
      DeleteTask s id =
        (.error "can only delete completed or cancelled tasks", s)) ∧
    (t.canDelete = true → Memory.GetTasksByDependency s id ≠ [] →
      DeleteTask s id =
        (.error "cannot delete task: tasks depend on it", s)) ∧
    (t.canDelete = true → Memory.GetTasksByDependency s id = [] →
      ∃ s', DeleteTask s id = (.ok (), s') ∧
        s'.tasks = eraseA s.tasks id ∧
        s'.userTasks = removeFromIndex s.userTasks t.assignee id ∧
        lookupA s'.tasks id = none ∧
        ((lookupA s'.userTasks t.assignee).getD []).contains id = false) := by
  have h1 : (t.assignee != cu) = false := by simp [ha]
  refine ⟨?_, ?_, ?_⟩
  · intro hdel
    simp only [DeleteTask, hcu, ht, h1, Bool.false_eq_true, if_false,
      hdel, Bool.not_false, if_true]
  · intro hdel hdeps
    have h2 : (Memory.GetTasksByDependency s id).isEmpty = false := by
      cases hL : Memory.GetTasksByDependency s id
      · exact absurd hL hdeps
      · rfl
    simp only [DeleteTask, hcu, ht, h1, Bool.false_eq_true, if_false,
      hdel, Bool.not_true, h2, Bool.not_false, if_true]
  · intro hdel hdeps
    have h2 : (Memory.GetTasksByDependency s id).isEmpty = true := by
      rw [hdeps]
      rfl
    refine ⟨{ s with tasks := eraseA s.tasks id, userTasks := removeFromIndex s.userTasks t.assignee id }, ?_, rfl, rfl, ?_, ?_⟩
    · simp only [DeleteTask, hcu, ht, h1, Bool.false_eq_true, if_false,
        hdel, Bool.not_true, h2, Memory.DeleteTask]
    · exact lookupA_eraseA_self hnd
    · rw [removeFromIndex]
      cases hL : lookupA s.userTasks t.assignee with
      | none =>
        simp [hL]
      | some l =>
        rw [hL] at hln
        simp only [Option.getD_some] at hln
        rw [lookupA_setA_self]
        simp only [Option.getD_some]
        have : id ∉ l.erase id := by
          intro hmem
          have h3 := (List.Nodup.mem_erase_iff hln).1 hmem
          exact h3.1 rfl
        simpa using this

theorem deleteTask_spec_witness : (DeleteTask storeC 1).1 = .ok () := by
  rcases (deleteTask_spec storeC "alice" 1 taskDone rfl rfl rfl (by decide)
    (by decide)).2.2 rfl rfl with ⟨s', h1, _⟩
  rw [h1]

/-- C10: Authenticate(B) inspects only B's own session state: with A
being the current user, if B exists and holds no valid session (and the
generated token is fresh), the call succeeds, appends a new active
session for B while leaving all existing sessions (A's included) in
place, and overwrites the single current-user pointer with B. -/
theorem authenticate_switches_current_user (s : Store) (a b token : String)
    (now : Nat)
    (_hcur : s.currentUser = some a)
    (hb : (lookupA s.users b).isSome = true)
    (hnosess : ∀ p ∈ s.sessions, p.2.userID = b → p.2.isValid now = false)
    (htok : lookupA s.sessions token = none)
    (hinv : CheckAllInvariants (GetSystemState s now) = true) :
    ∃ sess s', Authenticate s b token now = (.ok sess, s') ∧
      sess.userID = b ∧ sess.active = true ∧
      s'.currentUser = some b ∧
      s'.sessions = s.sessions ++ [(token, sess)] ∧
      (∀ p ∈ s.sessions, p ∈ s'.sessions) := by
  cases hL : lookupA s.users b with
  | none => rw [hL] at hb; simp at hb
  | some u =>
    have hfind : Memory.GetSessionByUser s b now = none := by
      rw [Memory.GetSessionByUser]
      have : s.sessions.find?
          (fun p => p.2.userID == b && p.2.isValid now) = none := by
        rw [List.find?_eq_none]
        intro p hp
        by_cases hub : p.2.userID = b
        · rw [hnosess p hp hub]
          simp
        · simp [hub]
      rw [this]
      rfl
    have htok2 : (lookupA s.sessions token).isSome = false := by
      rw [htok]
      rfl
    refine ⟨⟨b, token, true, now, now + 86400⟩, { s with sessions := setA s.sessions token ⟨b, token, true, now, now + 86400⟩, currentUser := some b }, ?_, rfl, rfl, rfl, setA_absent _ htok, ?_⟩
    · simp only [Authenticate, hL, hfind, Memory.CreateSession, htok2,
        Bool.false_eq_true, if_false]
      rw [if_pos ?hc]
      case hc => exact hinv
    · intro p hp
      simp only [setA_absent _ htok]
      exact List.mem_append_left _ hp

theorem authenticate_switches_current_user_witness :
    ∃ sess s', Authenticate storeS "bob" "tokB" 5 = (.ok sess, s') ∧
      sess.userID = "bob" ∧ s'.currentUser = some "bob" ∧
      ("tokA", sessAlice) ∈ s'.sessions := by
  rcases authenticate_switches_current_user storeS "alice" "bob" "tokB" 5
    rfl rfl (by decide) rfl (by decide) with
    ⟨sess, s', h1, h2, h3, h4, h5, h6⟩
  exact ⟨sess, s', h1, h2, h4, h6 _ (by decide)⟩

/-- Every target status in the transition table is a legal status. -/
theorem isValidStatus_of_transition {a b : String}
    (h : IsValidTransition a b = true) : isValidStatus b = true := by
  rw [IsValidTransition] at h
  have hmem : (a, b) ∈ ValidTransitions := by simpa using h
  simp only [ValidTransitions, List.mem_cons, List.not_mem_nil, or_false,
    Prod.mk.injEq] at hmem
  rcases hmem with ⟨h1, h2⟩ | ⟨h1, h2⟩ | ⟨h1, h2⟩ | ⟨h1, h2⟩ | ⟨h1, h2⟩ |
    ⟨h1, h2⟩ | ⟨h1, h2⟩ | ⟨h1, h2⟩ | ⟨h1, h2⟩ | ⟨h1, h2⟩ <;>
    (subst h2; decide)

/-- The duplicate-id check depends only on the key/id projection of the
task list. -/
theorem checkNoDup_congr {ts ts' : List (Nat × Task)}
    (h : ts.map (fun p => (p.1, p.2.id)) =
      ts'.map (fun p => (p.1, p.2.id))) :
    ∀ seen, checkNoDuplicateTaskIds ts seen =
      checkNoDuplicateTaskIds ts' seen := by
  induction ts generalizing ts' with
  | nil =>
    intro seen
    cases ts' with
    | nil => rfl
    | cons q r => simp at h
  | cons p rest ih =>
    intro seen
    cases ts' with
    | nil => simp at h
    | cons q rest' =>
      obtain ⟨k, t⟩ := p
      obtain ⟨k', t'⟩ := q
      simp only [List.map_cons, List.cons.injEq, Prod.mk.injEq] at h
      obtain ⟨⟨h1, h2⟩, h3⟩ := h
      simp only [checkNoDuplicateTaskIds]
      rw [h1, h2, ih h3]

/-- A store passing the duplicate-id check has each map key equal to the
stored task's id field. -/
theorem id_eq_of_checkNoDup {ts : List (Nat × Task)} {k : Nat} {t : Task} :
    ∀ {seen : List Nat}, checkNoDuplicateTaskIds ts seen = true →
      (k, t) ∈ ts → t.id = k := by
  induction ts with
  | nil =>
    intro seen _ hmem
    simp at hmem
  | cons p rest ih =>
    intro seen hchk hmem
    obtain ⟨k', t'⟩ := p
    simp only [checkNoDuplicateTaskIds] at hchk
    split at hchk
    · exact absurd hchk (by simp)
    · split at hchk
      · exact absurd hchk (by simp)
      · rename_i hne hc
        rcases List.mem_cons.1 hmem with h | h
        · injection h with h1 h2
          subst h1
          subst h2
          simpa using hne
        · exact ih hchk h

/-- The eight invariants of the verification engine are preserved when a
single stored task is replaced by a copy with a new legal status and an
updated timestamp not before its creation time. -/
theorem CheckAllInvariants_setA_status (st : SystemState) (id : Nat)
    (t : Task) (stat : String) (now : Nat)
    (ht : lookupA st.tasks id = some t)
    (hpre : CheckAllInvariants st = true)
    (hv : isValidStatus stat = true) (hts : t.createdAt ≤ now) :
    CheckAllInvariants { st with tasks := setA st.tasks id { t with status := stat, updatedAt := now } } = true := by
  rw [CheckAllInvariants] at hpre ⊢
  simp only [Bool.and_eq_true] at hpre ⊢
  obtain ⟨⟨⟨⟨⟨⟨⟨h1, h2⟩, h3⟩, h4⟩, h5⟩, h6⟩, h7⟩, h8⟩ := hpre
  have hmem : (id, t) ∈ st.tasks := lookupA_mem ht
  have hproj := map_setA (fun p => (p.1, p.2.dependencies)) ht
    (v := { t with status := stat, updatedAt := now }) rfl
  refine ⟨⟨⟨⟨⟨⟨⟨?_, ?_⟩, ?_⟩, ?_⟩, ?_⟩, ?_⟩, ?_⟩, ?_⟩
  · exact all_setA h1 (List.all_eq_true.1 h1 (id, t) hmem)
  · exact all_setA h2 (List.all_eq_true.1 h2 (id, t) hmem)
  · exact all_setA h3 (List.all_eq_true.1 h3 (id, t) hmem)
  · have hpid := map_setA (fun p => (p.1, p.2.id)) ht
      (v := { t with status := stat, updatedAt := now }) rfl
    rw [checkNoDup_congr hpid]
    exact h4
  · exact all_setA h5 hv
  · exact all_setA h6 (by simp [hts])
  · rw [checkNoCyclicDependencies, hproj]
    exact h7
  · exact all_setA h8 (List.all_eq_true.1 h8 (id, t) hmem)

/-- C1: for a task owned by the authenticated current user (in a store
the invariant engine accepts, with the clock not behind the task's
creation time), an UpdateStatus request succeeds — leaving the task's
status equal to the target — whenever the (from, to) pair is in the
transition table and, for in_progress, the dependency precondition
holds; and for every pair outside the table it fails with the store
unchanged. -/
theorem updateTaskStatus_transition_table (s : Store) (cu : String)
    (id : Nat) (t : Task) (toSt : String) (now : Nat)
    (hcu : s.currentUser = some cu)
    (ht : lookupA s.tasks id = some t)
    (hown : (((lookupA s.userTasks cu).getD []).contains id) = true) :
    (IsValidTransition t.status toSt = true →
      (toSt = statusInProgress → depsCompleted s t = true) →
      CheckAllInvariants (GetSystemState s now) = true →
      t.createdAt ≤ now →
      UpdateTaskStatus s id toSt now = (.ok (), { s with tasks := setA s.tasks id { t with status := toSt, updatedAt := now } }) ∧
      lookupA (UpdateTaskStatus s id toSt now).2.tasks id =
        some { t with status := toSt, updatedAt := now }) ∧
    (IsValidTransition t.status toSt = false →
      UpdateTaskStatus s id toSt now = (.error "invalid transition", s)) := by
  have hg1 : ¬((!(((lookupA s.userTasks cu).getD []).contains id)) = true) := by
    rw [hown]
    simp
  constructor
  · intro htr hdep hinv hts
    have hid : t.id = id := by
      have h4 : checkNoDuplicateTaskIds (GetSystemState s now).tasks [] =
          true := by
        rw [CheckAllInvariants] at hinv
        simp only [Bool.and_eq_true] at hinv
        exact hinv.1.1.1.1.2
      exact id_eq_of_checkNoDup h4 (lookupA_mem ht)
    have hg2 : ¬((!(IsValidTransition t.status toSt)) = true) := by
      rw [htr]
      simp
    have hg3 : ¬((toSt == statusInProgress && !(depsCompleted s t)) =
        true) := by
      intro hc
      rw [Bool.and_eq_true] at hc
      have heq : toSt = statusInProgress := by
        have := hc.1
        exact eq_of_beq this
      have hd := hdep heq
      rw [hd] at hc
      simp at hc
    have hpost : CheckAllInvariants (GetSystemState { s with tasks := setA s.tasks id { t with status := toSt, updatedAt := now } } now) = true :=
      CheckAllInvariants_setA_status (GetSystemState s now) id t toSt now
        ht hinv (isValidStatus_of_transition htr) hts
    have heq : UpdateTaskStatus s id toSt now = (.ok (), { s with tasks := setA s.tasks id { t with status := toSt, updatedAt := now } }) := by
      simp only [UpdateTaskStatus, hcu, ht, Memory.UpdateTask, hid]
      rw [if_neg hg1, if_neg hg2, if_neg hg3]
      simp only [bne_self_eq_false, Bool.false_eq_true, if_false]
      rw [if_pos ?hc]
      case hc =>
        rw [hid, hcu] at hpost
        exact hpost
    refine ⟨heq, ?_⟩
    rw [heq]
    exact lookupA_setA_self _ _ _
  · intro htr
    simp only [UpdateTaskStatus, hcu, ht]
    rw [if_neg hg1, if_pos ?hc2]
    case hc2 =>
      rw [htr]
      rfl

theorem updateTaskStatus_transition_table_witness :
    (lookupA (UpdateTaskStatus storeA 1 statusInProgress 5).2.tasks 1).map
      Task.status = some statusInProgress ∧
    UpdateTaskStatus storeA 1 statusPending 5 =
      (.error "invalid transition", storeA) := by
  constructor
  · have h := ((updateTaskStatus_transition_table storeA "alice" 1 taskPend
      statusInProgress 5 rfl rfl rfl).1 (by decide) (fun _ => by decide)
      (by decide) (by decide)).2
    rw [h]
    rfl
  · exact (updateTaskStatus_transition_table storeA "alice" 1 taskPend
      statusPending 5 rfl rfl rfl).2 (by decide)

/-! ## Lemmas for the dependency sweep -/

theorem lookupA_not_mem_keys {α β : Type} [BEq α] [LawfulBEq α]
    {l : List (α × β)} {k : α} (h : k ∉ l.map Prod.fst) :
    lookupA l k = none := by
  induction l with
  | nil => rfl
  | cons p rest ih =>
    simp only [List.map_cons, List.mem_cons] at h
    push_neg at h
    rw [lookupA_cons]
    have : (p.1 == k) = false := by
      simpa using fun hc => h.1 hc.symm
    rw [this]
    simp only [Bool.false_eq_true, if_false]
    exact ih h.2

/-- If a task's status is not blocked, ShouldUnblock is false. -/
theorem shouldUnblock_of_not_blocked {t : Task}
    (allT : List (Nat × Task)) (hb : (t.status == statusBlocked) = false) :
    ShouldUnblock t allT = false := by
  rw [ShouldUnblock]
  have : (t.status != statusBlocked) = true := by
    simp only [bne, hb]
    rfl
  rw [if_pos this]

/-- For a blocked task, ShouldUnblock is the dependency-completion
check. -/
theorem shouldUnblock_of_blocked {t : Task} (allT : List (Nat × Task))
    (hb : (t.status == statusBlocked) = true) :
    ShouldUnblock t allT = t.dependencies.all (fun d =>
      match lookupA allT d with
      | some dt => dt.status == statusCompleted
      | none => true) := by
  rw [ShouldUnblock]
  have : (t.status != statusBlocked) = false := by
    simp only [bne, hb]
    rfl
  rw [this]
  simp

/-- ShouldUnblock forces a blocked status. -/
theorem blocked_of_shouldUnblock {t : Task} {allT : List (Nat × Task)}
    (h : ShouldUnblock t allT = true) :
    (t.status == statusBlocked) = true := by
  cases hb : t.status == statusBlocked
  · rw [shouldUnblock_of_not_blocked allT hb] at h
    exact absurd h (by simp)
  · rfl

/-- Keys are preserved by the unblock fold. -/
theorem keys_sweep_foldl (now : Nat) (allT : List (Nat × Task)) :
    ∀ (l : List Task) (ts : List (Nat × Task)),
      (∀ t ∈ l, (lookupA ts t.id).isSome = true) →
      (l.foldl (fun acc t => if ShouldUnblock t allT then setA acc t.id { t with status := statusPending, updatedAt := now } else acc) ts).map
        Prod.fst = ts.map Prod.fst
  | [], ts, _ => rfl
  | t :: rest, ts, h => by
    rw [List.foldl_cons]
    by_cases hu : ShouldUnblock t allT = true
    · rw [if_pos hu]
      have hsome := h t (List.mem_cons_self t rest)
      have hrest : ∀ t2 ∈ rest,
          (lookupA (setA ts t.id { t with status := statusPending, updatedAt := now }) t2.id).isSome = true :=
        fun t2 ht2 => lookupA_setA_isSome _ (h t2 (.tail _ ht2))
      rw [keys_sweep_foldl now allT rest _ hrest]
      exact keys_setA _ hsome
    · rw [if_neg hu]
      exact keys_sweep_foldl now allT rest ts
        (fun t2 ht2 => h t2 (.tail _ ht2))

/-- Lookup after the unblock fold: the unique list entry with the given
id (if any, and if unblockable) is replaced by its pending copy. -/
theorem lookupA_sweep_foldl (now : Nat) (allT : List (Nat × Task)) :
    ∀ (l : List Task) (ts : List (Nat × Task)) (k : Nat),
      (l.map Task.id).Nodup →
      (∀ t ∈ l, lookupA ts t.id = some t) →
      lookupA (l.foldl (fun acc t => if ShouldUnblock t allT then setA acc t.id { t with status := statusPending, updatedAt := now } else acc) ts) k =
        (match l.find? (fun t => t.id == k) with
         | some t => if ShouldUnblock t allT then
             some { t with status := statusPending, updatedAt := now }
           else lookupA ts k
         | none => lookupA ts k)
  | [], ts, k, _, _ => rfl
  | t :: rest, ts, k, hnd, h => by
    simp only [List.map_cons, List.nodup_cons] at hnd
    rw [List.foldl_cons, List.find?_cons]
    by_cases hk : (t.id == k) = true
    · have hkk : t.id = k := eq_of_beq hk
      rw [hk]
      have hnone : rest.find? (fun t2 => t2.id == k) = none := by
        rw [List.find?_eq_none]
        intro t2 ht2
        simp only [beq_iff_eq]
        intro hc
        exact hnd.1 (hkk ▸ hc ▸ List.mem_map_of_mem Task.id ht2)
      by_cases hu : ShouldUnblock t allT = true
      · rw [if_pos hu]
        have hrest : ∀ t2 ∈ rest,
            lookupA (setA ts t.id { t with status := statusPending, updatedAt := now }) t2.id = some t2 := by
          intro t2 ht2
          have hne : t2.id ≠ t.id := by
            intro hc
            exact hnd.1 (hc ▸ List.mem_map_of_mem Task.id ht2)
          rw [lookupA_setA_ne _ hne]
          exact h t2 (.tail _ ht2)
        rw [lookupA_sweep_foldl now allT rest _ k hnd.2 hrest, hnone]
        rw [← hkk, lookupA_setA_self]
        simp [hu]
      · rw [if_neg hu]
        rw [lookupA_sweep_foldl now allT rest ts k hnd.2
          (fun t2 ht2 => h t2 (.tail _ ht2)), hnone]
        simp [hu]
    · have hkf : (t.id == k) = false := by
        simpa using hk
      simp only [hkf]
      by_cases hu : ShouldUnblock t allT = true
      · rw [if_pos hu]
        have hrest : ∀ t2 ∈ rest,
            lookupA (setA ts t.id { t with status := statusPending, updatedAt := now }) t2.id = some t2 := by
          intro t2 ht2
          have hne : t2.id ≠ t.id := by
            intro hc
            exact hnd.1 (hc ▸ List.mem_map_of_mem Task.id ht2)
          rw [lookupA_setA_ne _ hne]
          exact h t2 (.tail _ ht2)
        rw [lookupA_sweep_foldl now allT rest _ k hnd.2 hrest]
        have hkne : k ≠ t.id := by
          intro hc
          apply hk
          rw [hc]
          simp
        rw [lookupA_setA_ne _ hkne]
      · rw [if_neg hu]
        exact lookupA_sweep_foldl now allT rest ts k hnd.2
          (fun t2 ht2 => h t2 (.tail _ ht2))

/-- The unblock fold is the identity when nothing is unblockable. -/
theorem sweep_foldl_noop (now : Nat) (allT : List (Nat × Task)) :
    ∀ (l : List Task) (ts : List (Nat × Task)),
      (∀ t ∈ l, ShouldUnblock t allT = false) →
      l.foldl (fun acc t => if ShouldUnblock t allT then setA acc t.id { t with status := statusPending, updatedAt := now } else acc) ts = ts
  | [], _, _ => rfl
  | t :: rest, ts, h => by
    rw [List.foldl_cons, h t (List.mem_cons_self t rest)]
    simp only [Bool.false_eq_true, if_false]
    exact sweep_foldl_noop now allT rest ts
      (fun t2 ht2 => h t2 (.tail _ ht2))

/-- Functional characterization of the unblock loop: on a duplicate-free
task list whose members are stored under their own ids, `sweepGo`
returns the count of unblockable tasks and folds the pending updates
over the task map. -/
theorem sweepGo_eq (allT : List (Nat × Task)) (now : Nat) :
    ∀ (l : List Task) (cnt : Nat) (cur : Store),
      (l.map Task.id).Nodup →
      (∀ t ∈ l, lookupA cur.tasks t.id = some t) →
      sweepGo allT now l cnt cur =
        (.ok (cnt + (l.filter (fun t => ShouldUnblock t allT)).length),
         { cur with tasks := l.foldl (fun acc t => if ShouldUnblock t allT then setA acc t.id { t with status := statusPending, updatedAt := now } else acc) cur.tasks })
  | [], cnt, cur, _, _ => by
    rw [List.foldl_nil, List.filter_nil]
    rfl
  | t :: rest, cnt, cur, hnd, h => by
    simp only [List.map_cons, List.nodup_cons] at hnd
    simp only [sweepGo]
    by_cases hu : ShouldUnblock t allT = true
    · rw [if_pos hu]
      have hsome := h t (List.mem_cons_self t rest)
      simp only [Memory.UpdateTask, hsome, bne_self_eq_false,
        Bool.false_eq_true, if_false]
      have hrest : ∀ t2 ∈ rest,
          lookupA (setA cur.tasks t.id { t with status := statusPending, updatedAt := now }) t2.id = some t2 := by
        intro t2 ht2
        have hne : t2.id ≠ t.id := by
          intro hc
          exact hnd.1 (hc ▸ List.mem_map_of_mem Task.id ht2)
        rw [lookupA_setA_ne _ hne]
        exact h t2 (.tail _ ht2)
      rw [sweepGo_eq allT now rest (cnt + 1) _ hnd.2 hrest]
      have hfc : List.filter (fun t2 => ShouldUnblock t2 allT) (t :: rest) =
          t :: List.filter (fun t2 => ShouldUnblock t2 allT) rest := by
        simp [List.filter_cons, hu]
      rw [hfc, List.length_cons]
      rw [List.foldl_cons, if_pos hu]
      rw [show cnt + 1 + (rest.filter (fun t2 => ShouldUnblock t2 allT)).length = cnt + ((rest.filter (fun t2 => ShouldUnblock t2 allT)).length + 1) from by omega]
    · rw [if_neg hu]
      rw [sweepGo_eq allT now rest cnt cur hnd.2
        (fun t2 ht2 => h t2 (.tail _ ht2))]
      have huf : ShouldUnblock t allT = false := by
        cases hx : ShouldUnblock t allT
        · rfl
        · exact absurd hx hu
      have hfc : List.filter (fun t2 => ShouldUnblock t2 allT) (t :: rest) =
          List.filter (fun t2 => ShouldUnblock t2 allT) rest := by
        simp [List.filter_cons, huf]
      rw [hfc, List.foldl_cons, if_neg hu]

/-- Finding a task by id in the blocked-task list: for the task stored
under key `k`, the search succeeds exactly when that task is blocked. -/
theorem find_blockedList :
    ∀ (ts : List (Nat × Task)), (ts.map Prod.fst).Nodup →
      (∀ p ∈ ts, p.2.id = p.1) → ∀ {k : Nat} {v : Task},
      lookupA ts k = some v →
      ((ts.filter (fun p => p.2.status == statusBlocked)).map
        Prod.snd).find? (fun t => t.id == k) =
        (if (v.status == statusBlocked) = true then some v else none)
  | [], _, _, k, v, hv => by simp [lookupA] at hv
  | p :: rest, hnd, hids, k, v, hv => by
    simp only [List.map_cons, List.nodup_cons] at hnd
    rw [lookupA_cons] at hv
    have hrests : ∀ t ∈ (rest.filter
        (fun q => q.2.status == statusBlocked)).map Prod.snd,
        (t.id == k) = false → True := fun _ _ _ => trivial
    by_cases hpk : (p.1 == k) = true
    · rw [if_pos hpk] at hv
      have hpv : v = p.2 := by
        injection hv with hv2
        exact hv2.symm
      have hpidk : (p.2.id == k) = true := by
        have h1 : p.2.id = p.1 := hids p (List.mem_cons_self p rest)
        rw [h1]
        exact hpk
      have hnone : ((rest.filter
          (fun q => q.2.status == statusBlocked)).map Prod.snd).find?
          (fun t => t.id == k) = none := by
        rw [List.find?_eq_none]
        intro t ht
        rcases mem_map_filter_tasks ht with ⟨q, hq, hqt, _⟩
        simp only [beq_iff_eq]
        intro hc
        apply hnd.1
        have h2 : t.id = q.1 := by
          rw [← hqt]
          exact hids q (.tail _ hq)
        have h3 : q.1 = k := by rw [← h2, hc]
        have h4 : p.1 = k := eq_of_beq hpk
        rw [h4, ← h3]
        exact List.mem_map_of_mem Prod.fst hq
      by_cases hb : (p.2.status == statusBlocked) = true
      · have hfc : List.filter (fun q => q.2.status == statusBlocked)
            (p :: rest) =
            p :: List.filter (fun q => q.2.status == statusBlocked) rest := by
          simp [List.filter_cons, hb]
        rw [hfc, List.map_cons, List.find?_cons]
        rw [hpidk, hpv, hb]
        simp
      · have hbf : (p.2.status == statusBlocked) = false := by
          cases hx : (p.2.status == statusBlocked)
          · rfl
          · exact absurd hx hb
        have hfc : List.filter (fun q => q.2.status == statusBlocked)
            (p :: rest) =
            List.filter (fun q => q.2.status == statusBlocked) rest := by
          simp [List.filter_cons, hbf]
        rw [hfc, hnone, hpv, hbf]
        simp
    · rw [if_neg hpk] at hv
      have ihres := find_blockedList rest hnd.2
        (fun q hq => hids q (.tail _ hq)) hv
      by_cases hb : (p.2.status == statusBlocked) = true
      · have hfc : List.filter (fun q => q.2.status == statusBlocked)
            (p :: rest) =
            p :: List.filter (fun q => q.2.status == statusBlocked) rest := by
          simp [List.filter_cons, hb]
        rw [hfc, List.map_cons, List.find?_cons]
        have hpidk : (p.2.id == k) = false := by
          have h1 : p.2.id = p.1 := hids p (List.mem_cons_self p rest)
          rw [h1]
          cases hx : (p.1 == k)
          · rfl
          · exact absurd hx hpk
        rw [hpidk]
        simpa using ihres
      · have hbf : (p.2.status == statusBlocked) = false := by
          cases hx : (p.2.status == statusBlocked)
          · rfl
          · exact absurd hx hb
        have hfc : List.filter (fun q => q.2.status == statusBlocked)
            (p :: rest) =
            List.filter (fun q => q.2.status == statusBlocked) rest := by
          simp [List.filter_cons, hbf]
        rw [hfc]
        exact ihres

/-- Counting unblockable members of the blocked-task list equals
counting unblockable entries of the whole map (ShouldUnblock forces
blockedness). -/
theorem count_blockedList (allT : List (Nat × Task)) :
    ∀ ts : List (Nat × Task),
      (((ts.filter (fun p => p.2.status == statusBlocked)).map
        Prod.snd).filter (fun t => ShouldUnblock t allT)).length =
      (ts.filter (fun p => ShouldUnblock p.2 allT)).length
  | [] => rfl
  | p :: rest => by
    have ihres := count_blockedList allT rest
    by_cases hb : (p.2.status == statusBlocked) = true
    · have hfc : List.filter (fun q => q.2.status == statusBlocked)
          (p :: rest) =
          p :: List.filter (fun q => q.2.status == statusBlocked) rest := by
        simp [List.filter_cons, hb]
      rw [hfc, List.map_cons]
      by_cases hS : ShouldUnblock p.2 allT = true
      · have hf1 : List.filter (fun t => ShouldUnblock t allT)
            (p.2 :: (rest.filter
              (fun q => q.2.status == statusBlocked)).map Prod.snd) =
            p.2 :: List.filter (fun t => ShouldUnblock t allT)
              ((rest.filter
                (fun q => q.2.status == statusBlocked)).map Prod.snd) := by
          simp [List.filter_cons, hS]
        have hf2 : List.filter (fun q => ShouldUnblock q.2 allT)
            (p :: rest) =
            p :: List.filter (fun q => ShouldUnblock q.2 allT) rest := by
          simp [List.filter_cons, hS]
        rw [hf1, hf2, List.length_cons, List.length_cons, ihres]
      · have hSf : ShouldUnblock p.2 allT = false := by
          cases hx : ShouldUnblock p.2 allT
          · rfl
          · exact absurd hx hS
        have hf1 : List.filter (fun t => ShouldUnblock t allT)
            (p.2 :: (rest.filter
              (fun q => q.2.status == statusBlocked)).map Prod.snd) =
            List.filter (fun t => ShouldUnblock t allT)
              ((rest.filter
                (fun q => q.2.status == statusBlocked)).map Prod.snd) := by
          simp [List.filter_cons, hSf]
        have hf2 : List.filter (fun q => ShouldUnblock q.2 allT)
            (p :: rest) =
            List.filter (fun q => ShouldUnblock q.2 allT) rest := by
          simp [List.filter_cons, hSf]
        rw [hf1, hf2, ihres]
    · have hbf : (p.2.status == statusBlocked) = false := by
        cases hx : (p.2.status == statusBlocked)
        · rfl
        · exact absurd hx hb
      have hSf : ShouldUnblock p.2 allT = false :=
        shouldUnblock_of_not_blocked allT hbf
      have hf1 : List.filter (fun q => q.2.status == statusBlocked)
          (p :: rest) =
          List.filter (fun q => q.2.status == statusBlocked) rest := by
        simp [List.filter_cons, hbf]
      have hf2 : List.filter (fun q => ShouldUnblock q.2 allT)
          (p :: rest) =
          List.filter (fun q => ShouldUnblock q.2 allT) rest := by
        simp [List.filter_cons, hSf]
      rw [hf1, hf2, ihres]

/-- The blocked-task list of a well-keyed duplicate-free store: its
members are stored under their own ids and its id list is
duplicate-free. -/
theorem blockedList_facts (ts : List (Nat × Task))
    (hnd : (ts.map Prod.fst).Nodup) (hids : ∀ p ∈ ts, p.2.id = p.1) :
    (∀ t ∈ (ts.filter (fun p => p.2.status == statusBlocked)).map Prod.snd,
      lookupA ts t.id = some t) ∧
    (((ts.filter (fun p => p.2.status == statusBlocked)).map
      Prod.snd).map Task.id).Nodup := by
  constructor
  · intro t ht
    rcases mem_map_filter_tasks ht with ⟨p, hp, hpt, _⟩
    have h1 : t.id = p.1 := by
      rw [← hpt]
      exact hids p hp
    rw [h1, ← hpt]
    have hx : (p.1, p.2) ∈ ts := by
      cases p
      exact hp
    exact lookupA_of_mem_nodup hnd hx
  · have h1 : ((ts.filter (fun p => p.2.status == statusBlocked)).map
        Prod.snd).map Task.id =
        (ts.filter (fun p => p.2.status == statusBlocked)).map Prod.fst := by
      rw [List.map_map]
      apply List.map_congr_left
      intro p hp
      exact hids p (List.mem_of_mem_filter hp)
    rw [h1]
    exact ((List.filter_sublist ts).map Prod.fst).nodup hnd

/-- C7: a dependency sweep returns the number of blocked tasks whose
dependencies are all completed, sets exactly those tasks to pending
(touching only their updatedAt), leaves every other task record and
every other store field unchanged, and a second sweep immediately
afterwards changes nothing and returns zero. -/
theorem checkDependencies_sweep (s : Store) (now : Nat)
    (hnd : (s.tasks.map Prod.fst).Nodup)
    (hids : ∀ p ∈ s.tasks, p.2.id = p.1) :
    (CheckDependencies s now).1 =
      .ok ((s.tasks.filter (fun p => ShouldUnblock p.2 s.tasks)).length) ∧
    (CheckDependencies s now).2.tasks.map Prod.fst = s.tasks.map Prod.fst ∧
    (∀ p ∈ s.tasks, lookupA (CheckDependencies s now).2.tasks p.1 =
      some (if ShouldUnblock p.2 s.tasks then { p.2 with status := statusPending, updatedAt := now } else p.2)) ∧
    (CheckDependencies s now).2.users = s.users ∧
    (CheckDependencies s now).2.sessions = s.sessions ∧
    (CheckDependencies s now).2.userTasks = s.userTasks ∧
    (CheckDependencies s now).2.nextTaskID = s.nextTaskID ∧
    (CheckDependencies s now).2.currentUser = s.currentUser ∧
    CheckDependencies (CheckDependencies s now).2 now =
      (.ok 0, (CheckDependencies s now).2) := by
  obtain ⟨hbl1, hbl2⟩ := blockedList_facts s.tasks hnd hids
  have hmain : CheckDependencies s now =
      (.ok (0 + ((Memory.GetTasksByStatus s statusBlocked).filter
        (fun t => ShouldUnblock t s.tasks)).length),
       { s with tasks := (Memory.GetTasksByStatus s statusBlocked).foldl (fun acc t => if ShouldUnblock t s.tasks then setA acc t.id { t with status := statusPending, updatedAt := now } else acc) s.tasks }) :=
    sweepGo_eq s.tasks now (Memory.GetTasksByStatus s statusBlocked) 0 s
      hbl2 hbl1
  rw [hmain]
  set TS2 := (Memory.GetTasksByStatus s statusBlocked).foldl (fun acc t => if ShouldUnblock t s.tasks then setA acc t.id { t with status := statusPending, updatedAt := now } else acc) s.tasks with hTS2
  have hbl1s : ∀ t ∈ Memory.GetTasksByStatus s statusBlocked,
      (lookupA s.tasks t.id).isSome = true := by
    intro t ht
    rw [hbl1 t ht]
    rfl
  have hkeys : TS2.map Prod.fst = s.tasks.map Prod.fst := by
    rw [hTS2]
    exact keys_sweep_foldl now s.tasks
      (Memory.GetTasksByStatus s statusBlocked) s.tasks hbl1s
  have hlook : ∀ p ∈ s.tasks, lookupA TS2 p.1 =
      some (if ShouldUnblock p.2 s.tasks then { p.2 with status := statusPending, updatedAt := now } else p.2) := by
    intro p hp
    have hpv : lookupA s.tasks p.1 = some p.2 := by
      apply lookupA_of_mem_nodup hnd
      cases p
      exact hp
    rw [hTS2]
    rw [lookupA_sweep_foldl now s.tasks
      (Memory.GetTasksByStatus s statusBlocked) s.tasks p.1 hbl2 hbl1]
    rw [show Memory.GetTasksByStatus s statusBlocked =
      (s.tasks.filter (fun q => q.2.status == statusBlocked)).map Prod.snd
      from rfl]
    rw [find_blockedList s.tasks hnd hids hpv]
    by_cases hb : (p.2.status == statusBlocked) = true
    · rw [if_pos hb]
      by_cases hS : ShouldUnblock p.2 s.tasks = true
      · simp [hS]
      · have hSf : ShouldUnblock p.2 s.tasks = false := by
          cases hx : ShouldUnblock p.2 s.tasks
          · rfl
          · exact absurd hx hS
        simp [hSf, hpv]
    · have hbf : (p.2.status == statusBlocked) = false := by
        cases hx : (p.2.status == statusBlocked)
        · rfl
        · exact absurd hx hb
      have hSf := shouldUnblock_of_not_blocked s.tasks hbf
      rw [hbf]
      simp [hSf, hpv]
  have hcnt : ((Memory.GetTasksByStatus s statusBlocked).filter
      (fun t => ShouldUnblock t s.tasks)).length =
      (s.tasks.filter (fun p => ShouldUnblock p.2 s.tasks)).length :=
    count_blockedList s.tasks s.tasks
  have hnd2 : (TS2.map Prod.fst).Nodup := by
    rw [hkeys]
    exact hnd
  have hids2 : ∀ q ∈ TS2, q.2.id = q.1 := by
    intro q hq
    have hqk : q.1 ∈ TS2.map Prod.fst := List.mem_map_of_mem Prod.fst hq
    rw [hkeys] at hqk
    rcases List.mem_map.1 hqk with ⟨p, hp, hpq⟩
    have h2 : lookupA TS2 q.1 = some q.2 := by
      apply lookupA_of_mem_nodup hnd2
      cases q
      exact hq
    have h3 := hlook p hp
    rw [hpq, h2] at h3
    injection h3 with hq2
    rw [hq2]
    by_cases hS : ShouldUnblock p.2 s.tasks = true
    · rw [if_pos hS]
      exact hpq ▸ hids p hp
    · rw [if_neg hS]
      exact hpq ▸ hids p hp
  have hall0 : ∀ t ∈ (TS2.filter
      (fun q => q.2.status == statusBlocked)).map Prod.snd,
      ShouldUnblock t TS2 = false := by
    intro t ht
    rcases mem_map_filter_tasks ht with ⟨q, hq, hqt, hqb⟩
    have hqk : q.1 ∈ TS2.map Prod.fst := List.mem_map_of_mem Prod.fst hq
    rw [hkeys] at hqk
    rcases List.mem_map.1 hqk with ⟨p, hp, hpq⟩
    have h2 : lookupA TS2 q.1 = some q.2 := by
      apply lookupA_of_mem_nodup hnd2
      cases q
      exact hq
    have h3 := hlook p hp
    rw [hpq, h2] at h3
    injection h3 with hq2
    by_cases hS : ShouldUnblock p.2 s.tasks = true
    · exfalso
      rw [if_pos hS] at hq2
      have hps : ({ p.2 with status := statusPending, updatedAt := now } : Task).status = statusPending := rfl
      rw [hq2, hps] at hqb
      exact absurd hqb (by decide)
    · rw [if_neg hS] at hq2
      have hpb : (p.2.status == statusBlocked) = true := by
        rw [← hq2]
        exact hqb
      have hSf : ShouldUnblock p.2 s.tasks = false := by
        cases hx : ShouldUnblock p.2 s.tasks
        · rfl
        · exact absurd hx hS
      rw [shouldUnblock_of_blocked s.tasks hpb] at hSf
      have hex : ∃ d ∈ p.2.dependencies,
          (match lookupA s.tasks d with
           | some dt => dt.status == statusCompleted
           | none => true) = false := by
        by_contra hc
        push_neg at hc
        have hall : p.2.dependencies.all (fun d =>
            match lookupA s.tasks d with
            | some dt => dt.status == statusCompleted
            | none => true) = true := by
          rw [List.all_eq_true]
          intro d hd
          cases hx : (match lookupA s.tasks d with
            | some dt => dt.status == statusCompleted
            | none => true)
          · exact absurd hx (hc d hd)
          · rfl
        rw [hall] at hSf
        exact absurd hSf (by simp)
      rcases hex with ⟨d, hd, hdf⟩
      cases hdt : lookupA s.tasks d with
      | none =>
        rw [hdt] at hdf
        simp at hdf
      | some dt =>
        rw [hdt] at hdf
        have hlookd := hlook (d, dt) (lookupA_mem hdt)
        rw [← hqt, hq2]
        rw [shouldUnblock_of_blocked _ hpb]
        cases hall : p.2.dependencies.all (fun d2 =>
            match lookupA TS2 d2 with
            | some dt2 => dt2.status == statusCompleted
            | none => true)
        · rfl
        · exfalso
          have helem := List.all_eq_true.1 hall d hd
          rw [hlookd] at helem
          by_cases hSd : ShouldUnblock dt s.tasks = true
          · rw [if_pos hSd] at helem
            have hred : (match some ({ dt with status := statusPending, updatedAt := now } : Task) with
                | some dt2 => dt2.status == statusCompleted
                | none => true) = (statusPending == statusCompleted) := rfl
            rw [hred] at helem
            exact absurd helem (by decide)
          · rw [if_neg hSd] at helem
            rw [hdf] at helem
            exact absurd helem (by simp)
  obtain ⟨hbl1x, hbl2x⟩ := blockedList_facts TS2 hnd2 hids2
  refine ⟨?_, hkeys, hlook, rfl, rfl, rfl, rfl, rfl, ?_⟩
  · rw [hcnt, Nat.zero_add]
  · have hmain2 : CheckDependencies { s with tasks := TS2 } now =
        (.ok (0 + (((TS2.filter (fun q => q.2.status == statusBlocked)).map Prod.snd).filter (fun t => ShouldUnblock t TS2)).length),
         { s with tasks := ((TS2.filter (fun q => q.2.status == statusBlocked)).map Prod.snd).foldl (fun acc t => if ShouldUnblock t TS2 then setA acc t.id { t with status := statusPending, updatedAt := now } else acc) TS2 }) := by
      unfold CheckDependencies
      exact sweepGo_eq TS2 now
        ((TS2.filter (fun q => q.2.status == statusBlocked)).map Prod.snd)
        0 { s with tasks := TS2 } hbl2x hbl1x
    rw [hmain2]
    have hfnil : ((TS2.filter (fun q => q.2.status == statusBlocked)).map
        Prod.snd).filter (fun t => ShouldUnblock t TS2) = [] := by
      rw [List.filter_eq_nil_iff]
      intro t ht
      rw [hall0 t ht]
      exact Bool.false_ne_true
    have hnoop := sweep_foldl_noop now TS2
      ((TS2.filter (fun q => q.2.status == statusBlocked)).map Prod.snd)
      TS2 hall0
    rw [hfnil, hnoop]
    rfl

theorem checkDependencies_sweep_witness :
    (CheckDependencies storeB 9).1 = .ok 0 ∧
    (lookupA (CheckDependencies storeB 9).2.tasks 2).map Task.status =
      some statusBlocked := by
  obtain ⟨h1, _, h3, _⟩ := checkDependencies_sweep storeB 9 (by decide)
    (by decide)
  constructor
  · rw [h1]
    rfl
  · have h4 := h3 (2, taskBlk) (by decide)
    rw [h4]
    rfl

/-! ## Priority-validity preservation lemmas -/

theorem validate_priority {t : Task} (h : Task.validate t = .ok ()) :
    isValidPriority t.priority = true := by
  simp only [Task.validate] at h
  split at h
  · simp at h
  · split at h
    · simp at h
    · split at h
      · simp at h
      · split at h
        · simp at h
        · rename_i hgp
          cases hx : isValidPriority t.priority
          · rw [hx] at hgp
            simp at hgp
          · rfl

theorem pv_memUpdateTask {s : Store} {t : Task} {r : Except String Unit}
    {s' : Store} (h : Memory.UpdateTask s t = (r, s'))
    (hv : isValidPriority t.priority = true)
    (hall : ∀ q ∈ s.tasks, isValidPriority q.2.priority = true) :
    ∀ q ∈ s'.tasks, isValidPriority q.2.priority = true := by
  simp only [Memory.UpdateTask] at h
  split at h
  · injection h with h1 h2
    rw [← h2]
    exact hall
  · injection h with h1 h2
    rw [← h2]
    intro q hq
    rcases mem_setA hq with h3 | h3
    · rw [h3]
      exact hv
    · exact hall q h3

theorem pv_memCreateTask {s : Store} {t : Task} {r : Except String Unit}
    {s' : Store} (h : Memory.CreateTask s t = (r, s'))
    (hv : isValidPriority t.priority = true)
    (hall : ∀ q ∈ s.tasks, isValidPriority q.2.priority = true) :
    ∀ q ∈ s'.tasks, isValidPriority q.2.priority = true := by
  simp only [Memory.CreateTask] at h
  split at h
  · split at h
    · injection h with h1 h2
      rw [← h2]
      exact hall
    · injection h with h1 h2
      rw [← h2]
      intro q hq
      rcases mem_setA hq with h3 | h3
      · rw [h3]
        exact hv
      · exact hall q h3
  · split at h
    · injection h with h1 h2
      rw [← h2]
      exact hall
    · injection h with h1 h2
      rw [← h2]
      intro q hq
      rcases mem_setA hq with h3 | h3
      · rw [h3]
        exact hv
      · exact hall q h3

theorem pv_memDeleteTask {s : Store} {id : Nat} {r : Except String Unit}
    {s' : Store} (h : Memory.DeleteTask s id = (r, s'))
    (hall : ∀ q ∈ s.tasks, isValidPriority q.2.priority = true) :
    ∀ q ∈ s'.tasks, isValidPriority q.2.priority = true := by
  simp only [Memory.DeleteTask] at h
  split at h
  · injection h with h1 h2
    rw [← h2]
    exact hall
  · injection h with h1 h2
    rw [← h2]
    intro q hq
    exact hall q (mem_eraseA hq)

theorem pv_bulk (st : String) (now : Nat) :
    ∀ (ids : List Nat) (ts : List (Nat × Task)),
      (∀ q ∈ ts, isValidPriority q.2.priority = true) →
      ∀ q ∈ Memory.BulkUpdateStatus ts ids st now,
        isValidPriority q.2.priority = true
  | [], ts, hall => hall
  | i :: rest, ts, hall => by
    simp only [Memory.BulkUpdateStatus, List.foldl_cons]
    cases hL : lookupA ts i with
    | none =>
      exact pv_bulk st now rest ts hall
    | some t =>
      apply pv_bulk st now rest
      intro q hq
      rcases mem_setA hq with h3 | h3
      · rw [h3]
        exact hall (i, t) (lookupA_mem hL)
      · exact hall q h3

theorem pv_sweepGo (allT : List (Nat × Task)) (now : Nat) :
    ∀ (l : List Task) (cnt : Nat) (s : Store) (r : Except String Nat)
      (s' : Store), sweepGo allT now l cnt s = (r, s') →
      (∀ t ∈ l, isValidPriority t.priority = true) →
      (∀ q ∈ s.tasks, isValidPriority q.2.priority = true) →
      ∀ q ∈ s'.tasks, isValidPriority q.2.priority = true
  | [], cnt, s, r, s', h, _, hall => by
    injection h with h1 h2
    rw [← h2]
    exact hall
  | t :: rest, cnt, s, r, s', h, hl, hall => by
    simp only [sweepGo] at h
    split at h
    · split at h
      · rename_i e s1 heq
        injection h with h1 h2
        rw [← h2]
        exact pv_memUpdateTask heq (hl t (List.mem_cons_self t rest)) hall
      · rename_i a s1 heq
        exact pv_sweepGo allT now rest (cnt + 1) s1 r s' h
          (fun t2 ht2 => hl t2 (.tail _ ht2))
          (pv_memUpdateTask heq (hl t (List.mem_cons_self t rest)) hall)
    · exact pv_sweepGo allT now rest cnt s r s' h
        (fun t2 ht2 => hl t2 (.tail _ ht2)) hall

theorem tasks_authenticate (s : Store) (u tok : String) (now : Nat) :
    (Authenticate s u tok now).2.tasks = s.tasks := by
  simp only [Authenticate]
  split
  · rfl
  · split
    · rfl
    · split
      · rename_i e s1 heq
        simp only [Memory.CreateSession] at heq
        split at heq
        · injection heq with h1 h2
          rw [← h2]
        · injection heq with h1 h2
          simp at h1
      · rename_i a s1 heq
        simp only [Memory.CreateSession] at heq
        split at heq
        · injection heq with h1 h2
          simp at h1
        · injection heq with h1 h2
          rw [← h2]
          split
          · rfl
          · rfl

theorem tasks_logout (s : Store) (u : String) (now : Nat) :
    (Logout s u now).2.tasks = s.tasks := by
  simp only [Logout]
  split
  · rfl
  · split
    · rfl
    · split
      · rfl
      · rfl

/-- C9 (amended): every stored task's priority is one of the four legal
values after task creation (CreateTask validates the new task) and this
is preserved by every operation except UpdatePriority — UpdateStatus,
Reassign, UpdateDetails, Delete, BulkUpdateStatus, CheckDependencies,
Authenticate and Logout all keep the property, while UpdatePriority
stores its arbitrary argument unvalidated (see the counterexample). -/
theorem priority_validity_preservation :
    (∀ (s : Store) (ti de pr asg : String) (dd : Option Nat)
      (tg : List String) (deps : List Nat) (now : Nat)
      (r : Except String Task) (s' : Store),
      CreateTask s ti de pr asg dd tg deps now = (r, s') →
      (∀ q ∈ s.tasks, isValidPriority q.2.priority = true) →
      ∀ q ∈ s'.tasks, isValidPriority q.2.priority = true) ∧
    (∀ (s : Store) (id : Nat) (st : String) (now : Nat)
      (r : Except String Unit) (s' : Store),
      UpdateTaskStatus s id st now = (r, s') →
      (∀ q ∈ s.tasks, isValidPriority q.2.priority = true) →
      ∀ q ∈ s'.tasks, isValidPriority q.2.priority = true) ∧
    (∀ (s : Store) (id : Nat) (na : String) (now : Nat)
      (r : Except String Unit) (s' : Store),
      ReassignTask s id na now = (r, s') →
      (∀ q ∈ s.tasks, isValidPriority q.2.priority = true) →
      ∀ q ∈ s'.tasks, isValidPriority q.2.priority = true) ∧
    (∀ (s : Store) (id : Nat) (ti de : String) (dd : Option Nat) (now : Nat)
      (r : Except String Unit) (s' : Store),
      UpdateTaskDetails s id ti de dd now = (r, s') →
      (∀ q ∈ s.tasks, isValidPriority q.2.priority = true) →
      ∀ q ∈ s'.tasks, isValidPriority q.2.priority = true) ∧
    (∀ (s : Store) (id : Nat) (r : Except String Unit) (s' : Store),
      DeleteTask s id = (r, s') →
      (∀ q ∈ s.tasks, isValidPriority q.2.priority = true) →
      ∀ q ∈ s'.tasks, isValidPriority q.2.priority = true) ∧
    (∀ (s : Store) (ids : List Nat) (st : String) (now : Nat)
      (r : Except String Unit) (s' : Store),
      BulkUpdateStatus s ids st now = (r, s') →
      (∀ q ∈ s.tasks, isValidPriority q.2.priority = true) →
      ∀ q ∈ s'.tasks, isValidPriority q.2.priority = true) ∧
    (∀ (s : Store) (now : Nat) (r : Except String Nat) (s' : Store),
      CheckDependencies s now = (r, s') →
      (∀ q ∈ s.tasks, isValidPriority q.2.priority = true) →
      ∀ q ∈ s'.tasks, isValidPriority q.2.priority = true) ∧
    (∀ (s : Store) (u tok : String) (now : Nat),
      (∀ q ∈ s.tasks, isValidPriority q.2.priority = true) →
      ∀ q ∈ (Authenticate s u tok now).2.tasks,
        isValidPriority q.2.priority = true) ∧
    (∀ (s : Store) (u : String) (now : Nat),
      (∀ q ∈ s.tasks, isValidPriority q.2.priority = true) →
      ∀ q ∈ (Logout s u now).2.tasks,
        isValidPriority q.2.priority = true) := by
  refine ⟨?_, ?_, ?_, ?_, ?_, ?_, ?_, ?_, ?_⟩
  · intro s ti de pr asg dd tg deps now r s' h hall
    simp only [CreateTask] at h
    split at h
    · injection h with h1 h2
      rw [← h2]
      exact hall
    · split at h
      · injection h with h1 h2
        rw [← h2]
        exact hall
      · split at h
        · injection h with h1 h2
          rw [← h2]
          exact hall
        · split at h
          · injection h with h1 h2
            rw [← h2]
            exact hall
          · split at h
            · injection h with h1 h2
              rw [← h2]
              exact hall
            · rename_i hval
              split at h
              · rename_i e s1 heq
                injection h with h1 h2
                rw [← h2]
                exact fun q hq =>
                  pv_memCreateTask heq (validate_priority hval) hall q hq
              · rename_i a s1 heq
                split at h
                · injection h with h1 h2
                  rw [← h2]
                  exact fun q hq =>
                    pv_memCreateTask heq (validate_priority hval) hall q hq
                · injection h with h1 h2
                  rw [← h2]
                  exact fun q hq =>
                    pv_memCreateTask heq (validate_priority hval) hall q hq
  · intro s id st now r s' h hall
    simp only [UpdateTaskStatus] at h
    split at h
    · injection h with h1 h2
      rw [← h2]
      exact hall
    · split at h
      · injection h with h1 h2
        rw [← h2]
        exact hall
      · rename_i task htask
        have hvt : isValidPriority task.priority = true :=
          hall (id, task) (lookupA_mem htask)
        split at h
        · injection h with h1 h2
          rw [← h2]
          exact hall
        · split at h
          · injection h with h1 h2
            rw [← h2]
            exact hall
          · split at h
            · injection h with h1 h2
              rw [← h2]
              exact hall
            · split at h
              · rename_i e s1 heq
                injection h with h1 h2
                rw [← h2]
                exact pv_memUpdateTask heq hvt hall
              · rename_i a s1 heq
                split at h
                · injection h with h1 h2
                  rw [← h2]
                  exact pv_memUpdateTask heq hvt hall
                · injection h with h1 h2
                  rw [← h2]
                  exact pv_memUpdateTask heq hvt hall
  · intro s id na now r s' h hall
    simp only [ReassignTask] at h
    split at h
    · injection h with h1 h2
      rw [← h2]
      exact hall
    · split at h
      · injection h with h1 h2
        rw [← h2]
        exact hall
      · rename_i task htask
        have hvt : isValidPriority task.priority = true :=
          hall (id, task) (lookupA_mem htask)
        split at h
        · injection h with h1 h2
          rw [← h2]
          exact hall
        · split at h
          · injection h with h1 h2
            rw [← h2]
            exact hall
          · split at h
            · rename_i e s1 heq
              injection h with h1 h2
              rw [← h2]
              exact fun q hq => pv_memUpdateTask heq hvt hall q hq
            · rename_i a s1 heq
              injection h with h1 h2
              rw [← h2]
              exact fun q hq => pv_memUpdateTask heq hvt hall q hq
  · intro s id ti de dd now r s' h hall
    simp only [UpdateTaskDetails] at h
    split at h
    · injection h with h1 h2
      rw [← h2]
      exact hall
    · split at h
      · injection h with h1 h2
        rw [← h2]
        exact hall
      · rename_i task htask
        have hvt : isValidPriority task.priority = true :=
          hall (id, task) (lookupA_mem htask)
        split at h
        · injection h with h1 h2
          rw [← h2]
          exact hall
        · split at h
          · injection h with h1 h2
            rw [← h2]
            exact hall
          · split at h
            · rename_i e s1 heq
              injection h with h1 h2
              rw [← h2]
              exact pv_memUpdateTask heq hvt hall
            · rename_i a s1 heq
              injection h with h1 h2
              rw [← h2]
              exact pv_memUpdateTask heq hvt hall
  · intro s id r s' h hall
    simp only [DeleteTask] at h
    split at h
    · injection h with h1 h2
      rw [← h2]
      exact hall
    · split at h
      · injection h with h1 h2
        rw [← h2]
        exact hall
      · split at h
        · injection h with h1 h2
          rw [← h2]
          exact hall
        · split at h
          · injection h with h1 h2
            rw [← h2]
            exact hall
          · split at h
            · injection h with h1 h2
              rw [← h2]
              exact hall
            · split at h
              · rename_i e s1 heq
                injection h with h1 h2
                rw [← h2]
                exact pv_memDeleteTask heq hall
              · rename_i a s1 heq
                injection h with h1 h2
                rw [← h2]
                exact pv_memDeleteTask heq hall
  · intro s ids st now r s' h hall
    simp only [BulkUpdateStatus] at h
    split at h
    · injection h with h1 h2
      rw [← h2]
      exact hall
    · split at h
      · injection h with h1 h2
        rw [← h2]
        exact hall
      · split at h
        · injection h with h1 h2
          rw [← h2]
          exact pv_bulk st now ids s.tasks hall
        · injection h with h1 h2
          rw [← h2]
          exact pv_bulk st now ids s.tasks hall
  · intro s now r s' h hall
    rw [CheckDependencies] at h
    apply pv_sweepGo s.tasks now (Memory.GetTasksByStatus s statusBlocked)
      0 s r s' h
    · intro t ht
      rcases mem_map_filter_tasks ht with ⟨p, hp, hpt, _⟩
      rw [← hpt]
      exact hall p hp
    · exact hall
  · intro s u tok now hall q hq
    rw [tasks_authenticate] at hq
    exact hall q hq
  · intro s u now hall q hq
    rw [tasks_logout] at hq
    exact hall q hq

theorem priority_validity_preservation_witness :
    ∀ q ∈ (UpdateTaskStatus storeA 1 statusInProgress 5).2.tasks,
      isValidPriority q.2.priority = true :=
  priority_validity_preservation.2.1 storeA 1 statusInProgress 5
    (UpdateTaskStatus storeA 1 statusInProgress 5).1
    (UpdateTaskStatus storeA 1 statusInProgress 5).2 rfl (by decide)

end TaskMgmt
